import Mathlib

/-
  Verification of the sliding-window backtest evaluator and forecast metrics
  specified for Merlion's `ForecastEvaluator` (merlion.evaluate.forecast).
  The repository snapshot ships only the tutorial notebook
  `examples/forecast/2_ForecastMultivariate.ipynb`, which calls the evaluator;
  the evaluator itself is therefore embedded here from the specification.

  Modelling conventions: timestamps are natural numbers (one unit = one sample
  period, e.g. an hour), values are rationals, a time series is an ordered list
  of (timestamp, vector-of-values) samples, and durations (horizon, cadence,
  retrain frequency) are natural numbers in the same unit.  The evaluator loop
  is written with an explicit fuel argument that the top-level entry point
  instantiates with a sufficient bound; fuel-independence is proved below.
-/

namespace Merlion

/-- Modelled from the spec: `TimeSeries` (§3) — an ordered sequence of
(timestamp, vector-of-values) samples.  The library class itself is not in the
snapshot.  Strict monotonicity of timestamps is the predicate `tsSorted`. -/
abbrev TimeSeries := List (Nat × List ℚ)

/-- The list of timestamps of a time series, in order. -/
def tsTimes (s : TimeSeries) : List Nat := s.map Prod.fst

/-- Valid time series have strictly increasing timestamps (§3). -/
def tsSorted (s : TimeSeries) : Prop := (tsTimes s).Pairwise (· < ·)

instance (s : TimeSeries) : Decidable (tsSorted s) :=
  inferInstanceAs (Decidable ((tsTimes s).Pairwise (· < ·)))

instance {ε α : Type _} [DecidableEq ε] [DecidableEq α] :
    DecidableEq (Except ε α) := fun a b =>
  match a, b with
  | .error e, .error f =>
    if h : e = f then .isTrue (by rw [h]) else .isFalse (by simp [h])
  | .error _, .ok _ => .isFalse (by simp)
  | .ok _, .error _ => .isFalse (by simp)
  | .ok x, .ok y =>
    if h : x = y then .isTrue (by rw [h]) else .isFalse (by simp [h])

/-- Modelled from the spec: the `Model` collaborator (§3, §6) — `fit` and
`predict` operations, either of which may fail.  `predict` receives the
target timestamps and returns one vector of values per requested timestamp
(the forecast, reindexed to its target timestamps); the optional uncertainty
output is omitted since no claim concerns it. -/
structure Model where
  fit : TimeSeries → Except String Unit
  predict : List Nat → Except String (List (List ℚ))

/-- Modelled from the spec: `EvaluatorConfig` (§3), called
`ForecastEvaluatorConfig` in the notebook — horizon, cadence, retraining
frequency (`none` = "never") and optional earliest retraining time. -/
structure ForecastEvaluatorConfig where
  horizon : Nat
  cadence : Nat
  retrain_freq : Option Nat
  retrain_start_time : Option Nat
deriving DecidableEq

/-- Modelled from the spec: the error kinds of §7. Model errors carry the
failing timestamp and loop iteration index (§7 propagation policy). -/
inductive EvalError where
  | configuration (msg : String)
  | alignment
  | modelFit (t : Nat) (iter : Nat) (e : String)
  | modelPredict (t : Nat) (iter : Nat) (e : String)
deriving DecidableEq

/-- One observable call issued by the evaluator to the model collaborator. -/
inductive EvalCall where
  | fit (data : TimeSeries)
  | predict (timestamps : List Nat)
deriving DecidableEq

/-- Whether a call is a fit call. -/
def isFitCall : EvalCall → Bool
  | .fit _ => true
  | .predict _ => false

/-- Modelled from the spec: step 3b — the timestamps of the prediction window
`[t, t + horizon)`, sampled at the granularity of the input series, i.e. the
test timestamps falling in that half-open interval. -/
def windowTimes (test : TimeSeries) (horizon t : Nat) : List Nat :=
  (tsTimes test).filter (fun s => decide (t ≤ s) && decide (s < t + horizon))

/-- Modelled from the spec: step 3c — from the returned forecast, retain every
predicted point whose timestamp falls within `[t, t + cadence)`. -/
def retainedOf (pairs : List (Nat × List ℚ)) (cadence t : Nat) :
    List (Nat × List ℚ) :=
  pairs.filter (fun p => decide (p.1 < t + cadence))

/-- Specification view of the timestamps retained from the window issued at
`t`: test timestamps in `[t, t + min cadence horizon)`. -/
def retainedTimes (test : TimeSeries) (cfg : ForecastEvaluatorConfig)
    (t : Nat) : List Nat :=
  (tsTimes test).filter
    (fun s => decide (t ≤ s) && decide (s < t + min cfg.cadence cfg.horizon))

/-- Modelled from the spec: step 3a — all data observed up to simulated time
`t` (the training data plus the test data revealed so far). -/
def observedUpTo (train test : TimeSeries) (t : Nat) : TimeSeries :=
  train ++ test.filter (fun p => decide (p.1 < t))

/-- Modelled from the spec: step 3a — whether a retrain is due at time `t`:
`retrain_freq` is not "never", the elapsed time since the last retrain meets
or exceeds it, and `t` has reached `retrain_start_time` (if given). -/
def retrainDue (cfg : ForecastEvaluatorConfig) (lastRetrain t : Nat) : Bool :=
  match cfg.retrain_freq with
  | none => false
  | some freq =>
    decide (freq ≤ t - lastRetrain) &&
      decide (cfg.retrain_start_time.getD 0 ≤ t)

/-- Modelled from the spec: the retraining part of one loop iteration —
refit on all data observed so far when due, recording the fit call and the new
last-retrain time, or surface the model's failure with context. -/
def retrainStep (model : Model) (train test : TimeSeries)
    (cfg : ForecastEvaluatorConfig) (t iter lastRetrain : Nat) :
    List EvalCall × Except EvalError Nat :=
  if retrainDue cfg lastRetrain t then
    match model.fit (observedUpTo train test t) with
    | .ok _ => ([EvalCall.fit (observedUpTo train test t)], .ok t)
    | .error e =>
      ([EvalCall.fit (observedUpTo train test t)],
        .error (EvalError.modelFit t iter e))
  else ([], .ok lastRetrain)

/-- Modelled from the spec: steps 3b–3c of one loop iteration — issue the
prediction request for the window at `t` (skipped when the window holds no
timestamp), pair the returned forecast with its target timestamps, and retain
the `[t, t + cadence)` slice; a predict failure is surfaced with context. -/
def predictStep (model : Model) (test : TimeSeries)
    (cfg : ForecastEvaluatorConfig) (t iter : Nat) :
    List EvalCall × Except EvalError (List (Nat × List ℚ)) :=
  let wts := windowTimes test cfg.horizon t
  if wts.isEmpty then ([], .ok [])
  else
    match model.predict wts with
    | .ok vals =>
      ([EvalCall.predict wts], .ok (retainedOf (wts.zip vals) cfg.cadence t))
    | .error e =>
      ([EvalCall.predict wts], .error (EvalError.modelPredict t iter e))

/-- Modelled from the spec: the sliding-window loop (§4.1 step 3): while `t`
is within the test range, retrain if due, predict the window at `t`, retain
its cadence slice, and advance `t` by `cadence`.  All issued calls are
recorded; any model failure aborts the run with no partial results.  The fuel
argument bounds the iteration count; the entry point supplies a sufficient
value and fuel-independence is proved below. -/
def evalLoop (model : Model) (train test : TimeSeries)
    (cfg : ForecastEvaluatorConfig) (tEnd : Nat) :
    Nat → Nat → Nat → Nat →
      List EvalCall × Except EvalError (List (Nat × List ℚ))
  | 0, _, _, _ => ([], .ok [])
  | fuel + 1, t, iter, lastRetrain =>
    if t ≤ tEnd then
      match retrainStep model train test cfg t iter lastRetrain with
      | (rc, .error e) => (rc, .error e)
      | (rc, .ok lr) =>
        match predictStep model test cfg t iter with
        | (pc, .error e) => (rc ++ pc, .error e)
        | (pc, .ok kept) =>
          match evalLoop model train test cfg tEnd fuel (t + cfg.cadence)
              (iter + 1) lr with
          | (cs, .error e) => (rc ++ pc ++ cs, .error e)
          | (cs, .ok rest) => (rc ++ pc ++ cs, .ok (kept ++ rest))
    else ([], .ok [])

/-- The last training timestamp (0 for an empty training series). -/
def trainEnd (train : TimeSeries) : Nat := ((tsTimes train).getLast?).getD 0

/-- The first test timestamp — the simulated clock's initial value. -/
def testStart (test : TimeSeries) : Nat := ((tsTimes test).head?).getD 0

/-- The final test (ground-truth) timestamp. -/
def testEnd (test : TimeSeries) : Nat :=
  ((tsTimes test).getLast?).getD (testStart test)

/-- Modelled from the spec: EvaluatorConfig validation (§7) — `cadence <= 0`,
`horizon <= 0`, or a `retrain_start_time` before the training end, is a
`ConfigurationError`. -/
def configValid (train : TimeSeries) (cfg : ForecastEvaluatorConfig) : Bool :=
  decide (0 < cfg.cadence) && decide (0 < cfg.horizon) &&
    (match cfg.retrain_start_time with
     | none => true
     | some rst => decide (trainEnd train ≤ rst))

/-- Modelled from the spec: `ForecastEvaluator.get_predict` (§4.1) — validate
the config, perform the mandatory initial fit on the training series, then run
the sliding-window loop from the first timestamp strictly after the training
range to the final ground-truth timestamp.  Returns the list of issued calls
together with either the accumulated (timestamp, prediction) sequence or the
error that aborted the run. -/
def get_predict (model : Model) (train test : TimeSeries)
    (cfg : ForecastEvaluatorConfig) :
    List EvalCall × Except EvalError (List (Nat × List ℚ)) :=
  if configValid train cfg then
    match model.fit train with
    | .error e =>
      ([EvalCall.fit train], .error (EvalError.modelFit (trainEnd train) 0 e))
    | .ok _ =>
      if test.isEmpty then ([EvalCall.fit train], .ok [])
      else
        let t0 := testStart test
        let tEnd := testEnd test
        let out := evalLoop model train test cfg tEnd (tEnd + 1 - t0) t0 0
          (trainEnd train)
        (EvalCall.fit train :: out.1, out.2)
  else ([], .error (EvalError.configuration "invalid EvaluatorConfig"))

/-- The sequence of window start times the loop visits: `t, t + c, ...` while
within `tEnd`, bounded by the fuel. -/
def loopStarts (c : Nat) : Nat → Nat → Nat → List Nat
  | 0, _, _ => []
  | fuel + 1, t, tEnd =>
    if t ≤ tEnd then t :: loopStarts c fuel (t + c) tEnd else []

/-- The window starts of a full run on `test`. -/
def runStarts (test : TimeSeries) (cfg : ForecastEvaluatorConfig) : List Nat :=
  loopStarts cfg.cadence (testEnd test + 1 - testStart test) (testStart test)
    (testEnd test)

/-- The predict calls a conforming run issues: one per window start whose
window holds at least one timestamp. -/
def predictCallsOf (test : TimeSeries) (cfg : ForecastEvaluatorConfig)
    (starts : List Nat) : List EvalCall :=
  starts.filterMap (fun t =>
    let w := windowTimes test cfg.horizon t
    if w.isEmpty then none else some (EvalCall.predict w))

/-- A model whose fit operation always succeeds. -/
def FitOk (m : Model) : Prop := ∀ d, m.fit d = .ok ()

/-- A model whose predict operation always succeeds and returns one value
vector per requested timestamp (interface conformance, §6). -/
def PredictConforms (m : Model) : Prop :=
  ∀ ts, ∃ vs, m.predict ts = .ok vs ∧ vs.length = ts.length

/-- Timestamp-aligned pairs (ground-truth values, predicted values): one pair
per ground-truth timestamp also present in the prediction (§4.1 metric
scoring, alignment by timestamp intersection). -/
def alignedPairs (gt pr : TimeSeries) : List (List ℚ × List ℚ) :=
  gt.filterMap (fun g => (pr.lookup g.1).map (fun v => (g.2, v)))

/-- Per-variable terms of a metric over aligned pairs. -/
def pairTerms (f : ℚ → ℚ → ℚ) (pairs : List (List ℚ × List ℚ)) : List ℚ :=
  (pairs.map (fun gp => (gp.1.zip gp.2).map (fun av => f av.1 av.2))).flatten

/-- Arithmetic mean of a list of rationals (0 for the empty list). -/
def mean (xs : List ℚ) : ℚ := xs.sum / xs.length

/-- Squared error of one (actual, predicted) value pair. -/
def sqTerm (a p : ℚ) : ℚ := (a - p) ^ 2

/-- Modelled from the spec: the sMAPE term `200 * |actual - predicted| /
(|actual| + |predicted|)`, with the convention that when both values are
exactly zero the division is not performed and the term is 0 (§4.1). -/
def smapeTerm (a p : ℚ) : ℚ :=
  if |a| + |p| = 0 then 0 else 200 * |a - p| / (|a| + |p|)

/-- Modelled from the spec: mean squared error over the timestamp
intersection; `AlignmentError` when the two series share no timestamp. -/
def mse (gt pr : TimeSeries) : Except EvalError ℚ :=
  let pairs := alignedPairs gt pr
  if pairs.isEmpty then .error EvalError.alignment
  else .ok (mean (pairTerms sqTerm pairs))

/-- Modelled from the spec: sMAPE (§4.1 metric scoring) — mean of the
`smapeTerm`s over the timestamp intersection; `AlignmentError` when the two
series share no timestamp. -/
def sMAPE (gt pr : TimeSeries) : Except EvalError ℚ :=
  let pairs := alignedPairs gt pr
  if pairs.isEmpty then .error EvalError.alignment
  else .ok (mean (pairTerms smapeTerm pairs))

/-- Modelled from the spec: RMSE (§4.1 metric scoring) — square root of the
mean of squared per-timestamp, per-variable differences over the timestamp
intersection. -/
noncomputable def rmse (gt pr : TimeSeries) : Except EvalError ℝ :=
  match mse gt pr with
  | .error e => .error e
  | .ok q => .ok (Real.sqrt (q : ℝ))

/-- Modelled from the spec: the metric enumeration `ForecastMetric` (§6),
restricted to the two metrics the spec defines. -/
inductive ForecastMetric where
  | RMSE
  | sMAPE
deriving DecidableEq

/-- Modelled from the spec: `ForecastEvaluator.evaluate` — apply the chosen
pure scoring function to ground truth and prediction. -/
noncomputable def evaluate (metric : ForecastMetric) (gt pr : TimeSeries) :
    Except EvalError ℝ :=
  match metric with
  | .RMSE => rmse gt pr
  | .sMAPE => (sMAPE gt pr).map (fun q => (q : ℝ))

/-- A 1-variable hourly series of `len` points starting at `start`, all values
zero (the concrete scenarios of §8 fix only timestamps, not values). -/
def hourly (start len : Nat) : TimeSeries :=
  (List.range len).map (fun i => (start + i, [(0 : ℚ)]))

/-- The §8 scenario training series: 100 hourly points. -/
def train100 : TimeSeries := hourly 0 100

/-- The §8 scenario test series: 48 hourly points following the training. -/
def test48 : TimeSeries := hourly 100 48

/-- The §8 scenario config: horizon 24h, cadence 24h, never retrain. -/
def cfg24 : ForecastEvaluatorConfig := ⟨24, 24, none, none⟩

/-- The §8 scenario config with horizon 12h, cadence 24h. -/
def cfg12 : ForecastEvaluatorConfig := ⟨12, 24, none, none⟩

/-- A conforming model predicting 0 everywhere (used as a concrete witness
instantiation of the model collaborator). -/
def mZero : Model :=
  ⟨fun _ => .ok (), fun ts => .ok (ts.map (fun _ => [(0 : ℚ)]))⟩

/-- A model whose predict operation always fails. -/
def mFail : Model := ⟨fun _ => .ok (), fun _ => .error "predict failed"⟩

/-- A model call succeeded: the fit or predict operation it denotes returned
a value rather than an error. -/
def callOk (m : Model) : EvalCall → Prop
  | .fit d => m.fit d = .ok ()
  | .predict w => ∃ vs, m.predict w = .ok vs

/-- The §8 scenario config with horizon 24h, cadence 24h and a 24h retraining
frequency (retraining enabled). -/
def cfg24r : ForecastEvaluatorConfig := ⟨24, 24, some 24, none⟩

/-- A model whose fit succeeds only on the scenario training series — its
first mid-loop retrain therefore fails — and whose predict conforms. -/
def mFitFail : Model :=
  ⟨fun d => if d = train100 then .ok () else .error "fit failed",
   fun ts => .ok (ts.map (fun _ => [(0 : ℚ)]))⟩

/-! ### List helper lemmas -/

/-- The first components of a zip form a sublist of the left input. -/
theorem map_fst_zip_sublist {α β : Type _} :
    ∀ (l : List α) (l' : List β), ((l.zip l').map Prod.fst).Sublist l := by
  intro l
  induction l with
  | nil => intro l'; simp
  | cons x xs ih =>
    intro l'
    cases l' with
    | nil => simp
    | cons y ys =>
      simpa [List.zip_cons_cons] using List.Sublist.cons₂ x (ih ys)

/-- Retention commutes with projecting timestamps: the timestamps of the
retained pairs are the retained timestamps of the pairs. -/
theorem retainedOf_map_fst (c t : Nat) :
    ∀ pairs : List (Nat × List ℚ),
      (retainedOf pairs c t).map Prod.fst =
        (pairs.map Prod.fst).filter (fun s => decide (s < t + c)) := by
  intro pairs
  induction pairs with
  | nil => rfl
  | cons x xs ih =>
    by_cases h : x.1 < t + c <;> simp [retainedOf, List.filter_cons, h] <;>
      simpa [retainedOf] using ih

/-- A strictly sorted list splits as the part below a bound followed by the
part at or above it. -/
theorem filter_lt_append_of_sorted {l : List Nat} (b : Nat)
    (hl : l.Pairwise (· < ·)) :
    l.filter (fun s => decide (s < b)) ++ l.filter (fun s => decide (b ≤ s))
      = l := by
  induction l with
  | nil => rfl
  | cons x xs ih =>
    rcases List.pairwise_cons.mp hl with ⟨hx, hxs⟩
    by_cases h : x < b
    · simp only [List.filter_cons, decide_eq_true_eq, h, if_pos, decide_eq_false,
        Nat.not_le.mpr h]
      simp [h, Nat.not_le.mpr h, List.cons_append, ih hxs]
    · have hb : b ≤ x := Nat.le_of_not_lt h
      have h1 : xs.filter (fun s => decide (s < b)) = [] := by
        apply List.filter_eq_nil_iff.mpr
        intro a ha
        simp only [decide_eq_true_eq]
        exact Nat.not_lt.mpr (le_trans hb (le_of_lt (hx a ha)))
      have h2 : xs.filter (fun s => decide (b ≤ s)) = xs := by
        apply List.filter_eq_self.mpr
        intro a ha
        simp only [decide_eq_true_eq]
        exact le_trans hb (le_of_lt (hx a ha))
      simp [List.filter_cons, h, hb, h1, h2]

/-- A filterMap whose function is total on the list is a map. -/
theorem filterMap_eq_map_of_forall {α β : Type _} {f : α → Option β}
    {g : α → β} :
    ∀ {l : List α}, (∀ a ∈ l, f a = some (g a)) → l.filterMap f = l.map g := by
  intro l
  induction l with
  | nil => intro _; rfl
  | cons x xs ih =>
    intro h
    rw [List.filterMap_cons, h x (List.mem_cons_self x xs), List.map_cons,
      ih (fun a ha => h a (List.mem_cons_of_mem x ha))]

/-- Zipping a list with itself pairs each element with itself. -/
theorem zip_self_eq_map {α : Type _} :
    ∀ l : List α, l.zip l = l.map (fun x => (x, x)) := by
  intro l
  induction l with
  | nil => rfl
  | cons x xs ih => simp [List.zip_cons_cons, ih]

/-- The mean of a list of zeros is zero. -/
theorem mean_eq_zero_of_forall {xs : List ℚ} (h : ∀ x ∈ xs, x = 0) :
    mean xs = 0 := by
  unfold mean
  rw [List.sum_eq_zero h, zero_div]

/-! ### Window start lemmas -/

/-- Every visited window start lies between the initial time and the final
ground-truth timestamp. -/
theorem loopStarts_mem_bounds (c : Nat) :
    ∀ (fuel t tEnd : Nat), ∀ s ∈ loopStarts c fuel t tEnd, t ≤ s ∧ s ≤ tEnd := by
  intro fuel
  induction fuel with
  | zero => intro t tEnd s hs; simp [loopStarts] at hs
  | succ fuel ih =>
    intro t tEnd s hs
    simp only [loopStarts] at hs
    by_cases ht : t ≤ tEnd
    · rw [if_pos ht] at hs
      rcases List.mem_cons.mp hs with h | h
      · exact ⟨le_of_eq h.symm, h ▸ ht⟩
      · have := ih (t + c) tEnd s h
        exact ⟨le_trans (Nat.le_add_right t c) this.1, this.2⟩
    · rw [if_neg ht] at hs
      simp at hs

/-- When the simulated time has passed the final timestamp there are no
further window starts. -/
theorem loopStarts_eq_nil (c : Nat) (fuel t tEnd : Nat) (h : tEnd < t) :
    loopStarts c fuel t tEnd = [] := by
  cases fuel with
  | zero => rfl
  | succ fuel => simp [loopStarts, Nat.not_le.mpr h]

/-- Window starts are pairwise separated by at least `m` whenever `m` is at
most the cadence. -/
theorem loopStarts_pairwise (c m : Nat) (hm : m ≤ c) :
    ∀ (fuel t tEnd : Nat),
      (loopStarts c fuel t tEnd).Pairwise (fun a b => a + m ≤ b) := by
  intro fuel
  induction fuel with
  | zero => intro t tEnd; simp [loopStarts]
  | succ fuel ih =>
    intro t tEnd
    simp only [loopStarts]
    by_cases ht : t ≤ tEnd
    · rw [if_pos ht]
      refine List.pairwise_cons.mpr ⟨?_, ih (t + c) tEnd⟩
      intro s hs
      have := (loopStarts_mem_bounds c fuel (t + c) tEnd s hs).1
      omega
    · rw [if_neg ht]; exact List.Pairwise.nil

/-- With a positive cadence the window starts strictly increase. -/
theorem loopStarts_sorted (c : Nat) (hc : 0 < c) (fuel t tEnd : Nat) :
    (loopStarts c fuel t tEnd).Pairwise (· < ·) := by
  refine (loopStarts_pairwise c 1 hc fuel t tEnd).imp ?_
  intro a b h
  omega

/-- The head of the window start list, when present, is the initial time. -/
theorem loopStarts_head (c : Nat) :
    ∀ (fuel t tEnd s : Nat), (loopStarts c fuel t tEnd).head? = some s →
      s = t := by
  intro fuel t tEnd s h
  cases fuel with
  | zero => simp [loopStarts] at h
  | succ fuel =>
    simp only [loopStarts] at h
    by_cases ht : t ≤ tEnd
    · rw [if_pos ht] at h
      simpa using h.symm
    · rw [if_neg ht] at h
      simp at h

/-- Consecutive window starts differ by exactly the cadence. -/
theorem loopStarts_chain (c : Nat) :
    ∀ (fuel t tEnd : Nat),
      (loopStarts c fuel t tEnd).Chain' (fun a b => b = a + c) := by
  intro fuel
  induction fuel with
  | zero => intro t tEnd; simp [loopStarts]
  | succ fuel ih =>
    intro t tEnd
    simp only [loopStarts]
    by_cases ht : t ≤ tEnd
    · rw [if_pos ht]
      refine List.Chain'.cons' (ih (t + c) tEnd) ?_
      intro s hs
      exact loopStarts_head c fuel (t + c) tEnd s hs
    · rw [if_neg ht]; exact List.chain'_nil

/-! ### Disjoint window slices of a sorted list -/

/-- The concatenation of the `[t, t + m)` slices of a strictly sorted list,
over window starts pairwise separated by at least `m`, is a sublist of the
list: slices are disjoint and appear in order. -/
theorem flatten_filter_sublist (m : Nat) :
    ∀ (starts : List Nat) (l : List Nat), l.Pairwise (· < ·) →
      starts.Pairwise (fun a b => a + m ≤ b) →
      ((starts.map (fun t => l.filter
          (fun s => decide (t ≤ s) && decide (s < t + m)))).flatten).Sublist
        l := by
  intro starts
  induction starts with
  | nil => intro l _ _; simp
  | cons t rest ih =>
    intro l hl hst
    rcases List.pairwise_cons.mp hst with ⟨hsep, hrest⟩
    have hsplit := filter_lt_append_of_sorted (t + m) hl
    set A := l.filter (fun s => decide (s < t + m)) with hA
    set B := l.filter (fun s => decide (t + m ≤ s)) with hB
    have hAfirst : l.filter (fun s => decide (t ≤ s) && decide (s < t + m)) =
        A.filter (fun s => decide (t ≤ s) && decide (s < t + m)) := by
      rw [hA, List.filter_filter]
      apply List.filter_congr
      intro s _
      by_cases h1 : t ≤ s <;> by_cases h2 : s < t + m <;> simp [h1, h2]
    have hBrest : ∀ u ∈ rest,
        l.filter (fun s => decide (u ≤ s) && decide (s < u + m)) =
          B.filter (fun s => decide (u ≤ s) && decide (s < u + m)) := by
      intro u hu
      rw [hB, List.filter_filter]
      apply List.filter_congr
      intro s _
      have htm : t + m ≤ u := hsep u hu
      by_cases h1 : u ≤ s <;> by_cases h2 : s < u + m <;> simp [h1, h2]
      all_goals omega
    have hmap : rest.map (fun u => l.filter
        (fun s => decide (u ≤ s) && decide (s < u + m))) =
        rest.map (fun u => B.filter
          (fun s => decide (u ≤ s) && decide (s < u + m))) :=
      List.map_congr_left hBrest
    have h1 : (l.filter
        (fun s => decide (t ≤ s) && decide (s < t + m))).Sublist A := by
      rw [hAfirst]; exact List.filter_sublist A
    have h2 : ((rest.map (fun u => B.filter
        (fun s => decide (u ≤ s) && decide (s < u + m)))).flatten).Sublist B :=
      ih B (List.Pairwise.filter _ hl) hrest
    have heq : ((List.map (fun u => l.filter
          (fun s => decide (u ≤ s) && decide (s < u + m))) (t :: rest)).flatten)
        = l.filter (fun s => decide (t ≤ s) && decide (s < t + m)) ++
            (rest.map (fun u => B.filter
              (fun s => decide (u ≤ s) && decide (s < u + m)))).flatten := by
      rw [List.map_cons, List.flatten_cons, hmap]
    rw [heq]
    have hfin := List.Sublist.append h1 h2
    rw [hsplit] at hfin
    exact hfin

/-- The retained slice of a window equals the test timestamps in
`[t, t + min cadence horizon)`. -/
theorem retainedTimes_eq (test : TimeSeries) (cfg : ForecastEvaluatorConfig)
    (t : Nat) :
    retainedTimes test cfg t =
      (windowTimes test cfg.horizon t).filter
        (fun s => decide (s < t + cfg.cadence)) := by
  unfold retainedTimes windowTimes
  rw [List.filter_filter]
  apply List.filter_congr
  intro s _
  by_cases h1 : t ≤ s <;> by_cases h2 : s < t + cfg.cadence <;>
    by_cases h3 : s < t + cfg.horizon <;> simp [h1, h2, h3] <;> omega

/-! ### Evaluator loop lemmas -/

/-- With `retrain_freq = "never"` the retraining step does nothing. -/
theorem retrainStep_none {m : Model} {train test : TimeSeries}
    {cfg : ForecastEvaluatorConfig} (h : cfg.retrain_freq = none)
    (t iter lr : Nat) :
    retrainStep m train test cfg t iter lr = ([], .ok lr) := by
  simp [retrainStep, retrainDue, h]

/-- When the model's fit operation always succeeds, the retraining step
succeeds, emitting only fit calls. -/
theorem retrainStep_fitOk {m : Model} (hf : FitOk m) (train test : TimeSeries)
    (cfg : ForecastEvaluatorConfig) (t iter lr : Nat) :
    ∃ rc lr', retrainStep m train test cfg t iter lr = (rc, .ok lr') := by
  unfold retrainStep
  by_cases h : retrainDue cfg lr t
  · rw [if_pos h, hf (observedUpTo train test t)]
    exact ⟨_, _, rfl⟩
  · rw [if_neg h]
    exact ⟨_, _, rfl⟩

/-- When the model's predict operation conforms to the interface, the
prediction step succeeds: it issues exactly one predict call when the window
is nonempty and none otherwise, and the retained slice covers exactly the test
timestamps in `[t, t + min cadence horizon)`. -/
theorem predictStep_conforms {m : Model} (hp : PredictConforms m)
    (test : TimeSeries) (cfg : ForecastEvaluatorConfig) (t iter : Nat) :
    ∃ kept, predictStep m test cfg t iter =
        ((if (windowTimes test cfg.horizon t).isEmpty then []
          else [EvalCall.predict (windowTimes test cfg.horizon t)]), .ok kept) ∧
      kept.map Prod.fst = retainedTimes test cfg t := by
  unfold predictStep
  by_cases h : (windowTimes test cfg.horizon t).isEmpty
  · refine ⟨[], ?_, ?_⟩
    · simp [h]
    · rw [retainedTimes_eq, List.isEmpty_iff.mp h]
      rfl
  · obtain ⟨vs, hvs, hlen⟩ := hp (windowTimes test cfg.horizon t)
    refine ⟨retainedOf ((windowTimes test cfg.horizon t).zip vs) cfg.cadence t,
      ?_, ?_⟩
    · simp [h, hvs]
    · rw [retainedOf_map_fst,
        List.map_fst_zip _ _ (le_of_eq hlen.symm), retainedTimes_eq]

/-- The prediction step never emits a fit call. -/
theorem predictStep_noFit {m : Model} (test : TimeSeries)
    (cfg : ForecastEvaluatorConfig) (t iter : Nat) :
    ∀ call ∈ (predictStep m test cfg t iter).1, isFitCall call = false := by
  unfold predictStep
  by_cases h : (windowTimes test cfg.horizon t).isEmpty
  · simp [h]
  · rcases hm : m.predict (windowTimes test cfg.horizon t) with e | vs <;>
      simp [h, hm, isFitCall]

/-- For a fully conforming model the loop succeeds and the timestamps of the
accumulated result are exactly the concatenation of the retained slices of the
visited windows. -/
theorem evalLoop_conforms {m : Model} (train test : TimeSeries)
    (cfg : ForecastEvaluatorConfig) (tEnd : Nat) (hf : FitOk m)
    (hp : PredictConforms m) :
    ∀ fuel t iter lr, ∃ calls res,
      evalLoop m train test cfg tEnd fuel t iter lr = (calls, .ok res) ∧
      res.map Prod.fst =
        ((loopStarts cfg.cadence fuel t tEnd).map
          (retainedTimes test cfg)).flatten := by
  intro fuel
  induction fuel with
  | zero => intro t iter lr; exact ⟨[], [], rfl, by simp [loopStarts]⟩
  | succ fuel ih =>
    intro t iter lr
    by_cases ht : t ≤ tEnd
    · obtain ⟨rc, lr', hrs⟩ := retrainStep_fitOk hf train test cfg t iter lr
      obtain ⟨kept, hps, hkept⟩ := predictStep_conforms hp test cfg t iter
      obtain ⟨cs, rest, hrec, hres⟩ := ih (t + cfg.cadence) (iter + 1) lr'
      have hstep : evalLoop m train test cfg tEnd (fuel + 1) t iter lr =
          ((rc ++ (if (windowTimes test cfg.horizon t).isEmpty then []
            else [EvalCall.predict (windowTimes test cfg.horizon t)])) ++ cs,
           .ok (kept ++ rest)) := by
        simp only [evalLoop, if_pos ht, hrs, hps, hrec]
      refine ⟨_, kept ++ rest, hstep, ?_⟩
      simp only [loopStarts, if_pos ht, List.map_cons, List.flatten_cons,
        List.map_append, hkept, hres]
    · exact ⟨[], [], by simp [evalLoop, ht], by simp [loopStarts, ht]⟩

/-- With `retrain_freq = "never"` the loop never issues a fit call. -/
theorem evalLoop_noFit {m : Model} {train test : TimeSeries}
    {cfg : ForecastEvaluatorConfig} (tEnd : Nat) (h : cfg.retrain_freq = none) :
    ∀ fuel t iter lr, ∀ call ∈ (evalLoop m train test cfg tEnd fuel t iter lr).1,
      isFitCall call = false := by
  intro fuel
  induction fuel with
  | zero => intro t iter lr call hc; simp [evalLoop] at hc
  | succ fuel ih =>
    intro t iter lr call hc
    by_cases ht : t ≤ tEnd
    · rcases hps : predictStep m test cfg t iter with ⟨pc, pr⟩
      have hpc : ∀ c ∈ pc, isFitCall c = false := by
        have := @predictStep_noFit m test cfg t iter
        rw [hps] at this
        exact this
      rcases hrec : evalLoop m train test cfg tEnd fuel (t + cfg.cadence)
          (iter + 1) lr with ⟨cs, rr⟩
      have hcs : ∀ c ∈ cs, isFitCall c = false := by
        intro c hmem
        have := ih (t + cfg.cadence) (iter + 1) lr c
        rw [hrec] at this
        exact this hmem
      rcases pr with e | kept
      · simp only [evalLoop, if_pos ht, retrainStep_none h, hps,
          List.nil_append] at hc
        exact hpc call hc
      · rcases rr with e | rest
        all_goals
          simp only [evalLoop, if_pos ht, retrainStep_none h, hps, hrec,
            List.nil_append] at hc
          rcases List.mem_append.mp hc with h1 | h1
          · exact hpc call h1
          · exact hcs call h1
    · simp [evalLoop, ht] at hc

/-- With `retrain_freq = "never"` and a conforming model, the loop's call log
is exactly one predict call per visited window that holds at least one
timestamp, in order. -/
theorem evalLoop_calls {m : Model} {train test : TimeSeries}
    {cfg : ForecastEvaluatorConfig} (tEnd : Nat) (h : cfg.retrain_freq = none)
    (hp : PredictConforms m) :
    ∀ fuel t iter lr,
      (evalLoop m train test cfg tEnd fuel t iter lr).1 =
        predictCallsOf test cfg (loopStarts cfg.cadence fuel t tEnd) := by
  intro fuel
  induction fuel with
  | zero => intro t iter lr; simp [evalLoop, loopStarts, predictCallsOf]
  | succ fuel ih =>
    intro t iter lr
    by_cases ht : t ≤ tEnd
    · obtain ⟨kept, hps, _⟩ := predictStep_conforms hp test cfg t iter
      rcases hrec : evalLoop m train test cfg tEnd fuel (t + cfg.cadence)
          (iter + 1) lr with ⟨cs, rr⟩
      have hcs : cs = predictCallsOf test cfg
          (loopStarts cfg.cadence fuel (t + cfg.cadence) tEnd) := by
        have := ih (t + cfg.cadence) (iter + 1) lr
        rw [hrec] at this
        exact this
      have hsimp : (evalLoop m train test cfg tEnd (fuel + 1) t iter lr).1 =
          (if (windowTimes test cfg.horizon t).isEmpty then []
            else [EvalCall.predict (windowTimes test cfg.horizon t)]) ++ cs := by
        rcases rr with e | rest <;>
          simp only [evalLoop, if_pos ht, retrainStep_none h, hps, hrec,
            List.nil_append]
      rw [hsimp, hcs]
      simp only [loopStarts, if_pos ht, predictCallsOf, List.filterMap_cons]
      by_cases hw : (windowTimes test cfg.horizon t).isEmpty <;> simp [hw]
    · simp [evalLoop, ht, loopStarts, predictCallsOf]

/-- For any model, a successful loop's result timestamps form a sublist of the
concatenated retained window slices. -/
theorem evalLoop_res_sublist {m : Model} {train test : TimeSeries}
    {cfg : ForecastEvaluatorConfig} (tEnd : Nat) :
    ∀ fuel t iter lr res,
      (evalLoop m train test cfg tEnd fuel t iter lr).2 = .ok res →
      (res.map Prod.fst).Sublist
        (((loopStarts cfg.cadence fuel t tEnd).map
          (retainedTimes test cfg)).flatten) := by
  intro fuel
  induction fuel with
  | zero =>
    intro t iter lr res hres
    simp only [evalLoop] at hres
    cases hres
    simp
  | succ fuel ih =>
    intro t iter lr res hres
    by_cases ht : t ≤ tEnd
    · rcases hrs : retrainStep m train test cfg t iter lr with ⟨rc, rr⟩
      rcases rr with e | lr'
      · simp [evalLoop, if_pos ht, hrs] at hres
      · rcases hps : predictStep m test cfg t iter with ⟨pc, pr⟩
        rcases pr with e | kept
        · simp [evalLoop, if_pos ht, hrs, hps] at hres
        · rcases hrec : evalLoop m train test cfg tEnd fuel (t + cfg.cadence)
              (iter + 1) lr' with ⟨cs, rrr⟩
          rcases rrr with e | rest
          · simp [evalLoop, if_pos ht, hrs, hps, hrec] at hres
          · simp only [evalLoop, if_pos ht, hrs, hps, hrec,
              Except.ok.injEq] at hres
            subst hres
            have hkept : (kept.map Prod.fst).Sublist
                (retainedTimes test cfg t) := by
              unfold predictStep at hps
              by_cases hw : (windowTimes test cfg.horizon t).isEmpty
              · rw [if_pos hw] at hps
                cases hps
                simp
              · rw [if_neg hw] at hps
                rcases hm : m.predict (windowTimes test cfg.horizon t) with
                  e | vs
                · rw [hm] at hps; cases hps
                · rw [hm] at hps
                  cases hps
                  rw [retainedOf_map_fst, retainedTimes_eq]
                  exact List.Sublist.filter _
                    (map_fst_zip_sublist (windowTimes test cfg.horizon t) vs)
            have hrest : (rest.map Prod.fst).Sublist
                (((loopStarts cfg.cadence fuel (t + cfg.cadence) tEnd).map
                  (retainedTimes test cfg)).flatten) := by
              apply ih
              rw [hrec]
            simp only [loopStarts, if_pos ht, List.map_cons, List.flatten_cons,
              List.map_append]
            exact List.Sublist.append hkept hrest
    · simp only [evalLoop, if_neg ht] at hres
      cases hres
      simp

/-- The loop's outcome does not depend on the fuel once the fuel is at least
`tEnd + 1 - t`: with a positive cadence the loop terminates within that many
iterations. -/
theorem evalLoop_fuel {m : Model} {train test : TimeSeries}
    {cfg : ForecastEvaluatorConfig} (tEnd : Nat) (hc : 0 < cfg.cadence) :
    ∀ fuel fuel' t iter lr, tEnd + 1 - t ≤ fuel → tEnd + 1 - t ≤ fuel' →
      evalLoop m train test cfg tEnd fuel t iter lr =
        evalLoop m train test cfg tEnd fuel' t iter lr := by
  intro fuel
  induction fuel with
  | zero =>
    intro fuel' t iter lr h1 h2
    have ht : tEnd < t := by omega
    cases fuel' with
    | zero => rfl
    | succ fuel' => simp [evalLoop, Nat.not_le.mpr ht]
  | succ fuel ih =>
    intro fuel' t iter lr h1 h2
    cases fuel' with
    | zero =>
      have ht : tEnd < t := by omega
      simp [evalLoop, Nat.not_le.mpr ht]
    | succ fuel' =>
      by_cases ht : t ≤ tEnd
      · rcases hrs : retrainStep m train test cfg t iter lr with ⟨rc, rr⟩
        rcases hps : predictStep m test cfg t iter with ⟨pc, pr⟩
        rcases pr with e | kept
        · rcases rr with e' | lr' <;> simp [evalLoop, if_pos ht, hrs, hps]
        · rcases rr with e' | lr'
          · simp [evalLoop, if_pos ht, hrs]
          · simp only [evalLoop, if_pos ht, hrs, hps]
            rw [ih fuel' (t + cfg.cadence) (iter + 1) lr' (by omega) (by omega)]
      · simp [evalLoop, ht]

/-- Unfolding of `get_predict` on a validated config, a successful initial
fit and a nonempty test series: the initial fit call followed by the loop. -/
theorem get_predict_run {m : Model} {train test : TimeSeries}
    {cfg : ForecastEvaluatorConfig} {u : Unit}
    (h1 : configValid train cfg = true) (h2 : m.fit train = .ok u)
    (h3 : test ≠ []) :
    get_predict m train test cfg =
      (EvalCall.fit train ::
        (evalLoop m train test cfg (testEnd test)
          (testEnd test + 1 - testStart test) (testStart test) 0
          (trainEnd train)).1,
       (evalLoop m train test cfg (testEnd test)
          (testEnd test + 1 - testStart test) (testStart test) 0
          (trainEnd train)).2) := by
  have hie : test.isEmpty = false := List.isEmpty_eq_false.mpr h3
  simp [get_predict, h1, h2, hie]

/-! ### Abort-on-failure lemmas -/

/-- A successful retraining step issued only successful calls. -/
theorem retrainStep_calls_ok {m : Model} {train test : TimeSeries}
    {cfg : ForecastEvaluatorConfig} {t iter lr : Nat} {rc : List EvalCall}
    {lr' : Nat} (h : retrainStep m train test cfg t iter lr = (rc, .ok lr')) :
    ∀ c ∈ rc, callOk m c := by
  unfold retrainStep at h
  by_cases hd : retrainDue cfg lr t
  · rw [if_pos hd] at h
    rcases hm : m.fit (observedUpTo train test t) with e | u
    · rw [hm] at h
      simp at h
    · rw [hm] at h
      rw [Prod.mk.injEq] at h
      intro c hc
      rw [← h.1] at hc
      rcases List.mem_singleton.mp hc with rfl
      show m.fit (observedUpTo train test t) = .ok ()
      cases u
      exact hm
  · rw [if_neg hd, Prod.mk.injEq] at h
    intro c hc
    rw [← h.1] at hc
    simp at hc

/-- A failing retraining step fails on the refit over the observed data and
logs exactly that fit call, with the error naming the time and iteration. -/
theorem retrainStep_error {m : Model} {train test : TimeSeries}
    {cfg : ForecastEvaluatorConfig} {t iter lr : Nat} {rc : List EvalCall}
    {err : EvalError}
    (h : retrainStep m train test cfg t iter lr = (rc, .error err)) :
    ∃ e, err = EvalError.modelFit t iter e ∧
      rc = [EvalCall.fit (observedUpTo train test t)] ∧
      m.fit (observedUpTo train test t) = .error e := by
  unfold retrainStep at h
  by_cases hd : retrainDue cfg lr t
  · rw [if_pos hd] at h
    rcases hm : m.fit (observedUpTo train test t) with e | u
    · rw [hm] at h
      rw [Prod.mk.injEq] at h
      obtain ⟨h1, h2⟩ := h
      simp only [Except.error.injEq] at h2
      exact ⟨e, h2.symm, h1.symm, rfl⟩
    · rw [hm] at h
      simp at h
  · rw [if_neg hd] at h
    simp at h

/-- A successful prediction step issued only successful calls. -/
theorem predictStep_calls_ok {m : Model} {test : TimeSeries}
    {cfg : ForecastEvaluatorConfig} {t iter : Nat} {pc : List EvalCall}
    {kept : List (Nat × List ℚ)}
    (h : predictStep m test cfg t iter = (pc, .ok kept)) :
    ∀ c ∈ pc, callOk m c := by
  unfold predictStep at h
  by_cases hw : (windowTimes test cfg.horizon t).isEmpty
  · rw [if_pos hw, Prod.mk.injEq] at h
    intro c hc
    rw [← h.1] at hc
    simp at hc
  · rw [if_neg hw] at h
    rcases hm : m.predict (windowTimes test cfg.horizon t) with e | vs
    · rw [hm] at h
      simp at h
    · rw [hm] at h
      rw [Prod.mk.injEq] at h
      intro c hc
      rw [← h.1] at hc
      rcases List.mem_singleton.mp hc with rfl
      exact ⟨vs, hm⟩

/-- A failing prediction step fails on its (nonempty) window and logs exactly
that predict call, with the error naming the time and iteration. -/
theorem predictStep_error {m : Model} {test : TimeSeries}
    {cfg : ForecastEvaluatorConfig} {t iter : Nat} {pc : List EvalCall}
    {err : EvalError}
    (h : predictStep m test cfg t iter = (pc, .error err)) :
    ∃ e, err = EvalError.modelPredict t iter e ∧
      pc = [EvalCall.predict (windowTimes test cfg.horizon t)] ∧
      m.predict (windowTimes test cfg.horizon t) = .error e ∧
      windowTimes test cfg.horizon t ≠ [] := by
  unfold predictStep at h
  by_cases hw : (windowTimes test cfg.horizon t).isEmpty
  · rw [if_pos hw] at h
    simp at h
  · rw [if_neg hw] at h
    rcases hm : m.predict (windowTimes test cfg.horizon t) with e | vs
    · rw [hm] at h
      rw [Prod.mk.injEq] at h
      obtain ⟨h1, h2⟩ := h
      simp only [Except.error.injEq] at h2
      exact ⟨e, h2.symm, h1.symm, rfl,
        List.isEmpty_eq_false.mp (by simpa using hw)⟩
    · rw [hm] at h
      simp at h

/-- A loop run that returns a result issued only successful calls: had any
fit or predict call failed at any iteration, the run could not have
succeeded. -/
theorem evalLoop_ok_calls {m : Model} {train test : TimeSeries}
    {cfg : ForecastEvaluatorConfig} (tEnd : Nat) :
    ∀ fuel t iter lr calls res,
      evalLoop m train test cfg tEnd fuel t iter lr = (calls, .ok res) →
      ∀ c ∈ calls, callOk m c := by
  intro fuel
  induction fuel with
  | zero =>
    intro t iter lr calls res h
    simp only [evalLoop, Prod.mk.injEq] at h
    intro c hc
    rw [← h.1] at hc
    simp at hc
  | succ fuel ih =>
    intro t iter lr calls res h
    by_cases ht : t ≤ tEnd
    · rcases hrs : retrainStep m train test cfg t iter lr with ⟨rc, rr⟩
      rcases rr with e | lr'
      · simp [evalLoop, if_pos ht, hrs] at h
      · rcases hps : predictStep m test cfg t iter with ⟨pc, pr⟩
        rcases pr with e | kept
        · simp [evalLoop, if_pos ht, hrs, hps] at h
        · rcases hrec : evalLoop m train test cfg tEnd fuel (t + cfg.cadence)
              (iter + 1) lr' with ⟨cs, rrr⟩
          rcases rrr with e | rest
          · simp [evalLoop, if_pos ht, hrs, hps, hrec] at h
          · simp only [evalLoop, if_pos ht, hrs, hps, hrec,
              Prod.mk.injEq] at h
            intro c hc
            rw [← h.1] at hc
            rcases List.mem_append.mp hc with hc1 | hc1
            · rcases List.mem_append.mp hc1 with hc2 | hc2
              · exact retrainStep_calls_ok hrs c hc2
              · exact predictStep_calls_ok hps c hc2
            · exact ih (t + cfg.cadence) (iter + 1) lr' cs rest hrec c hc1
    · simp only [evalLoop, if_neg ht, Prod.mk.injEq] at h
      intro c hc
      rw [← h.1] at hc
      simp at hc

/-- An erroring loop run's call log ends exactly at the first failing call —
every earlier call succeeded, no later window was processed — and the error
names that call's data, its timestamp `t + (i - iter)·cadence` and its loop
iteration index `i`, with no partial result sequence returned. -/
theorem evalLoop_error_log {m : Model} {train test : TimeSeries}
    {cfg : ForecastEvaluatorConfig} (tEnd : Nat) :
    ∀ fuel t iter lr calls err,
      evalLoop m train test cfg tEnd fuel t iter lr = (calls, .error err) →
      ∃ pre, (∀ c ∈ pre, callOk m c) ∧
        ((∃ tf i e, err = EvalError.modelFit tf i e ∧
            calls = pre ++ [EvalCall.fit (observedUpTo train test tf)] ∧
            m.fit (observedUpTo train test tf) = .error e ∧
            iter ≤ i ∧ tf = t + (i - iter) * cfg.cadence) ∨
         (∃ tf i e, err = EvalError.modelPredict tf i e ∧
            calls = pre ++
              [EvalCall.predict (windowTimes test cfg.horizon tf)] ∧
            m.predict (windowTimes test cfg.horizon tf) = .error e ∧
            windowTimes test cfg.horizon tf ≠ [] ∧
            iter ≤ i ∧ tf = t + (i - iter) * cfg.cadence)) := by
  intro fuel
  induction fuel with
  | zero =>
    intro t iter lr calls err h
    simp only [evalLoop, Prod.mk.injEq] at h
    exact absurd h.2 (by simp)
  | succ fuel ih =>
    intro t iter lr calls err h
    by_cases ht : t ≤ tEnd
    · rcases hrs : retrainStep m train test cfg t iter lr with ⟨rc, rr⟩
      rcases rr with e' | lr'
      · simp only [evalLoop, if_pos ht, hrs, Prod.mk.injEq] at h
        obtain ⟨h1, h2⟩ := h
        simp only [Except.error.injEq] at h2
        obtain ⟨e, herr, hrc, hm⟩ := retrainStep_error hrs
        subst h2
        refine ⟨[], by simp, Or.inl ⟨t, iter, e, herr, ?_, hm, le_refl iter,
          by simp⟩⟩
        rw [← h1, hrc]
        simp
      · rcases hps : predictStep m test cfg t iter with ⟨pc, pr⟩
        rcases pr with e' | kept
        · simp only [evalLoop, if_pos ht, hrs, hps, Prod.mk.injEq] at h
          obtain ⟨h1, h2⟩ := h
          simp only [Except.error.injEq] at h2
          obtain ⟨e, herr, hpc, hm, hw⟩ := predictStep_error hps
          subst h2
          refine ⟨rc, retrainStep_calls_ok hrs,
            Or.inr ⟨t, iter, e, herr, ?_, hm, hw, le_refl iter, by simp⟩⟩
          rw [← h1, hpc]
        · rcases hrec : evalLoop m train test cfg tEnd fuel (t + cfg.cadence)
              (iter + 1) lr' with ⟨cs, rrr⟩
          rcases rrr with e' | rest
          · simp only [evalLoop, if_pos ht, hrs, hps, hrec,
              Prod.mk.injEq] at h
            obtain ⟨h1, h2⟩ := h
            simp only [Except.error.injEq] at h2
            subst h2
            obtain ⟨pre, hpre, hcase⟩ :=
              ih (t + cfg.cadence) (iter + 1) lr' cs e' hrec
            have hprepend : ∀ c ∈ rc ++ pc ++ pre, callOk m c := by
              intro c hc
              rcases List.mem_append.mp hc with hc1 | hc1
              · rcases List.mem_append.mp hc1 with hc2 | hc2
                · exact retrainStep_calls_ok hrs c hc2
                · exact predictStep_calls_ok hps c hc2
              · exact hpre c hc1
            have harith : ∀ i : Nat, iter + 1 ≤ i →
                t + cfg.cadence + (i - (iter + 1)) * cfg.cadence =
                  t + (i - iter) * cfg.cadence := by
              intro i hle
              have h2 : i - iter = (i - (iter + 1)) + 1 := by omega
              rw [h2, Nat.add_mul, one_mul]
              ring
            refine ⟨rc ++ pc ++ pre, hprepend, ?_⟩
            rcases hcase with ⟨tf, i, e, herr, hcalls, hm, hle, htf⟩ |
              ⟨tf, i, e, herr, hcalls, hm, hw, hle, htf⟩
            · refine Or.inl ⟨tf, i, e, herr, ?_, hm, by omega, ?_⟩
              · rw [← h1, hcalls]
                simp [List.append_assoc]
              · rw [htf]
                exact harith i hle
            · refine Or.inr ⟨tf, i, e, herr, ?_, hm, hw, by omega, ?_⟩
              · rw [← h1, hcalls]
                simp [List.append_assoc]
              · rw [htf]
                exact harith i hle
          · simp only [evalLoop, if_pos ht, hrs, hps, hrec,
              Prod.mk.injEq] at h
            exact absurd h.2 (by simp)
    · simp only [evalLoop, if_neg ht, Prod.mk.injEq] at h
      exact absurd h.2 (by simp)

/-! ### Sorted-series helpers -/

/-- For a nonempty list, `getLast?.getD` is a member. -/
theorem getLastD_mem {l : List Nat} (d : Nat) (h : l ≠ []) :
    l.getLast?.getD d ∈ l := by
  induction l with
  | nil => exact absurd rfl h
  | cons x xs ih =>
    cases xs with
    | nil => simp
    | cons y ys =>
      rw [List.getLast?_cons_cons]
      exact List.mem_cons_of_mem x (ih (by simp))

/-- The first timestamp of a nonempty series is one of its timestamps. -/
theorem testStart_mem {test : TimeSeries} (h : test ≠ []) :
    testStart test ∈ tsTimes test := by
  cases test with
  | nil => exact absurd rfl h
  | cons x xs => simp [testStart, tsTimes]

/-- The last timestamp of a nonempty series is one of its timestamps. -/
theorem testEnd_mem {test : TimeSeries} (h : test ≠ []) :
    testEnd test ∈ tsTimes test := by
  unfold testEnd
  apply getLastD_mem
  simpa [tsTimes, List.map_eq_nil_iff] using h

/-- In a sorted nonempty list the default-headed head is at most the
default-headed last element. -/
theorem headD_le_getLastD_of_sorted :
    ∀ l : List Nat, l ≠ [] → l.Pairwise (· < ·) →
      l.head?.getD 0 ≤ l.getLast?.getD (l.head?.getD 0) := by
  intro l hne hs
  cases l with
  | nil => exact absurd rfl hne
  | cons x xs =>
    rw [List.head?_cons, Option.getD_some]
    rcases List.mem_cons.mp (getLastD_mem x (List.cons_ne_nil x xs)) with
      h1 | h1
    · exact le_of_eq h1.symm
    · exact le_of_lt ((List.pairwise_cons.mp hs).1 _ h1)

/-- In a sorted nonempty series the first timestamp is at most the last. -/
theorem testStart_le_testEnd {test : TimeSeries} (h : test ≠ [])
    (hs : tsSorted test) : testStart test ≤ testEnd test := by
  have hne : tsTimes test ≠ [] := by
    simpa [tsTimes, List.map_eq_nil_iff] using h
  exact headD_le_getLastD_of_sorted (tsTimes test) hne hs

/-- With a sorted nonempty test series the loop's first window start is the
first test timestamp. -/
theorem runStarts_head {test : TimeSeries} (cfg : ForecastEvaluatorConfig)
    (h : test ≠ []) (hs : tsSorted test) :
    (runStarts test cfg).head? = some (testStart test) := by
  have hle := testStart_le_testEnd h hs
  unfold runStarts
  have hf : testEnd test + 1 - testStart test =
      (testEnd test - testStart test) + 1 := by omega
  rw [hf]
  simp [loopStarts, hle]

/-! ### Lookup and alignment lemmas -/

/-- A lookup misses exactly when the key is absent. -/
theorem lookup_eq_none_iff {β : Type _} :
    ∀ (l : List (Nat × β)) (a : Nat),
      l.lookup a = none ↔ a ∉ l.map Prod.fst := by
  intro l a
  induction l with
  | nil => simp
  | cons x xs ih =>
    rcases x with ⟨k, b⟩
    rw [List.lookup_cons]
    by_cases h : a = k
    · subst h
      simp
    · have hbeq : (a == k) = false := beq_false_of_ne h
      simp [hbeq, h, ih]

/-- With duplicate-free keys, looking up a sample's own timestamp returns its
own values. -/
theorem lookup_self {S : TimeSeries} (hnd : (tsTimes S).Nodup) :
    ∀ g ∈ S, S.lookup g.1 = some g.2 := by
  induction S with
  | nil => intro g hg; simp at hg
  | cons x xs ih =>
    intro g hg
    rcases x with ⟨k, b⟩
    have hk : k ∉ tsTimes xs := by
      have := List.nodup_cons.mp hnd
      simpa [tsTimes] using this.1
    rcases List.mem_cons.mp hg with h | h
    · subst h
      simp [List.lookup_cons]
    · have hne : g.1 ≠ k := by
        intro hcontra
        apply hk
        rw [← hcontra]
        exact List.mem_map_of_mem Prod.fst h
      have hbeq : (g.1 == k) = false := beq_false_of_ne hne
      rw [List.lookup_cons]
      simp only [hbeq]
      exact ih (List.nodup_cons.mp hnd).2 g h

/-- The length of a filterMap counts the inputs that produce a value. -/
theorem length_filterMap_eq_countP {α β : Type _} (f : α → Option β) :
    ∀ l : List α,
      (l.filterMap f).length = l.countP (fun a => (f a).isSome) := by
  intro l
  induction l with
  | nil => rfl
  | cons x xs ih =>
    rw [List.filterMap_cons, List.countP_cons]
    cases hfx : f x <;> simp [hfx, ih]

/-- The number of aligned pairs counts the ground-truth samples whose
timestamp also occurs in the prediction; it does not depend on any value. -/
theorem alignedPairs_length (gt pr : TimeSeries) :
    (alignedPairs gt pr).length =
      gt.countP (fun g => decide (g.1 ∈ tsTimes pr)) := by
  unfold alignedPairs
  rw [length_filterMap_eq_countP]
  apply List.countP_congr
  intro g _
  cases hl : pr.lookup g.1 with
  | none =>
    have : g.1 ∉ tsTimes pr := (lookup_eq_none_iff pr g.1).mp hl
    simp [hl, this]
  | some v =>
    have : g.1 ∈ tsTimes pr := by
      by_contra hcontra
      rw [(lookup_eq_none_iff pr g.1).mpr hcontra] at hl
      cases hl
    simp [hl, this]

/-- The aligned-pair list is empty exactly when the two series share no
timestamp. -/
theorem alignedPairs_eq_nil_iff (gt pr : TimeSeries) :
    alignedPairs gt pr = [] ↔ ∀ s ∈ tsTimes gt, s ∉ tsTimes pr := by
  unfold alignedPairs
  rw [List.filterMap_eq_nil_iff]
  constructor
  · intro h s hs hspr
    rcases List.mem_map.mp hs with ⟨g, hg, rfl⟩
    have hmap := h g hg
    rw [Option.map_eq_none'] at hmap
    exact (lookup_eq_none_iff pr g.1).mp hmap hspr
  · intro h g hg
    rw [(lookup_eq_none_iff pr g.1).mpr (h g.1 (List.mem_map_of_mem _ hg))]
    rfl

/-- Dropping prediction rows at timestamps outside the given key set does not
change lookups at keys inside the set. -/
theorem lookup_filter_keys {β : Type _} (keys : List Nat) :
    ∀ (l : List (Nat × β)) (a : Nat), a ∈ keys →
      (l.filter (fun p => decide (p.1 ∈ keys))).lookup a = l.lookup a := by
  intro l a ha
  induction l with
  | nil => rfl
  | cons x xs ih =>
    rcases x with ⟨k, b⟩
    by_cases hk : k = a
    · subst hk
      simp [List.filter_cons, ha, List.lookup_cons]
    · have hbeq : (a == k) = false := beq_false_of_ne (Ne.symm hk)
      by_cases hkk : k ∈ keys
      · simp [List.filter_cons, hkk, List.lookup_cons, hbeq, ih]
      · simp [List.filter_cons, hkk, List.lookup_cons, hbeq, ih]

/-- Alignment ignores prediction rows at timestamps absent from the ground
truth: scoring operates only on the timestamp intersection. -/
theorem alignedPairs_filter_right (gt pr : TimeSeries) :
    alignedPairs gt (pr.filter (fun p => decide (p.1 ∈ tsTimes gt))) =
      alignedPairs gt pr := by
  unfold alignedPairs
  apply List.filterMap_congr
  intro g hg
  rw [lookup_filter_keys (tsTimes gt) pr g.1 (List.mem_map_of_mem _ hg)]

/-- Alignment ignores ground-truth rows at timestamps absent from the
prediction: scoring operates only on the timestamp intersection. -/
theorem alignedPairs_filter_left (gt pr : TimeSeries) :
    alignedPairs (gt.filter (fun g => decide (g.1 ∈ tsTimes pr))) pr =
      alignedPairs gt pr := by
  unfold alignedPairs
  induction gt with
  | nil => rfl
  | cons g gs ih =>
    by_cases h : g.1 ∈ tsTimes pr
    · cases hfg : pr.lookup g.1 <;>
        simp [List.filter_cons, h, List.filterMap_cons, hfg, ih]
    · have hnone : pr.lookup g.1 = none := (lookup_eq_none_iff pr g.1).mpr h
      simp [List.filter_cons, h, List.filterMap_cons, hnone, ih]

/-! ### Metric lemmas -/

/-- Scoring a series against itself pairs each sample's values with
themselves. -/
theorem alignedPairs_self {S : TimeSeries} (hnd : (tsTimes S).Nodup) :
    alignedPairs S S = S.map (fun g => (g.2, g.2)) := by
  unfold alignedPairs
  apply filterMap_eq_map_of_forall
  intro g hg
  rw [lookup_self hnd g hg]
  rfl

/-- Any diagonal-vanishing per-value metric term vanishes on self-aligned
pairs. -/
theorem pairTerms_self_zero (f : ℚ → ℚ → ℚ) (hf : ∀ x, f x x = 0)
    (S : TimeSeries) :
    ∀ q ∈ pairTerms f (S.map (fun g => (g.2, g.2))), q = 0 := by
  intro q hq
  unfold pairTerms at hq
  rw [List.mem_flatten] at hq
  rcases hq with ⟨l, hl, hql⟩
  rcases List.mem_map.mp hl with ⟨gp, hgp, rfl⟩
  rcases List.mem_map.mp hql with ⟨av, hav, rfl⟩
  rcases List.mem_map.mp hgp with ⟨g, hg, rfl⟩
  rw [zip_self_eq_map] at hav
  rcases List.mem_map.mp hav with ⟨x, hx, rfl⟩
  exact hf x

/-- The squared-error term vanishes on the diagonal. -/
theorem sqTerm_self (x : ℚ) : sqTerm x x = 0 := by
  simp [sqTerm]

/-- The sMAPE term vanishes on the diagonal. -/
theorem smapeTerm_self (x : ℚ) : smapeTerm x x = 0 := by
  unfold smapeTerm
  by_cases h : |x| + |x| = 0
  · rw [if_pos h]
  · rw [if_neg h]
    simp

/-- The mean squared error of a nonempty series against itself is 0. -/
theorem mse_self {S : TimeSeries} (hne : S ≠ []) (hnd : (tsTimes S).Nodup) :
    mse S S = .ok 0 := by
  have hpairs : alignedPairs S S = S.map (fun g => (g.2, g.2)) :=
    alignedPairs_self hnd
  have hie : (alignedPairs S S).isEmpty = false := by
    rw [hpairs, List.isEmpty_eq_false, Ne, List.map_eq_nil_iff]
    exact hne
  simp only [mse, hie, Bool.false_eq_true, if_false, Except.ok.injEq]
  rw [hpairs]
  exact mean_eq_zero_of_forall (pairTerms_self_zero sqTerm sqTerm_self S)

/-- The sMAPE of a nonempty series against itself is 0. -/
theorem sMAPE_self {S : TimeSeries} (hne : S ≠ []) (hnd : (tsTimes S).Nodup) :
    sMAPE S S = .ok 0 := by
  have hpairs : alignedPairs S S = S.map (fun g => (g.2, g.2)) :=
    alignedPairs_self hnd
  have hie : (alignedPairs S S).isEmpty = false := by
    rw [hpairs, List.isEmpty_eq_false, Ne, List.map_eq_nil_iff]
    exact hne
  simp only [sMAPE, hie, Bool.false_eq_true, if_false, Except.ok.injEq]
  rw [hpairs]
  exact mean_eq_zero_of_forall (pairTerms_self_zero smapeTerm smapeTerm_self S)

/-- sMAPE fails with an alignment error exactly when the series share no
timestamp. -/
theorem sMAPE_error_iff (gt pr : TimeSeries) :
    sMAPE gt pr = .error EvalError.alignment ↔
      ∀ s ∈ tsTimes gt, s ∉ tsTimes pr := by
  rw [← alignedPairs_eq_nil_iff]
  cases hie : (alignedPairs gt pr).isEmpty
  · have : alignedPairs gt pr ≠ [] := List.isEmpty_eq_false.mp hie
    simp [sMAPE, hie, this]
  · have : alignedPairs gt pr = [] := List.isEmpty_iff.mp hie
    simp [sMAPE, hie, this]

/-- MSE fails with an alignment error exactly when the series share no
timestamp. -/
theorem mse_error_iff (gt pr : TimeSeries) :
    mse gt pr = .error EvalError.alignment ↔
      ∀ s ∈ tsTimes gt, s ∉ tsTimes pr := by
  rw [← alignedPairs_eq_nil_iff]
  cases hie : (alignedPairs gt pr).isEmpty
  · have : alignedPairs gt pr ≠ [] := List.isEmpty_eq_false.mp hie
    simp [mse, hie, this]
  · have : alignedPairs gt pr = [] := List.isEmpty_iff.mp hie
    simp [mse, hie, this]

/-- RMSE fails with an alignment error exactly when MSE does. -/
theorem rmse_error_iff_mse (gt pr : TimeSeries) :
    rmse gt pr = .error EvalError.alignment ↔
      mse gt pr = .error EvalError.alignment := by
  unfold rmse
  cases hm : mse gt pr <;> simp [hm]

/-- On overlapping series, sMAPE succeeds and returns the mean term. -/
theorem sMAPE_ok_of_ne (gt pr : TimeSeries) (h : alignedPairs gt pr ≠ []) :
    sMAPE gt pr = .ok (mean (pairTerms smapeTerm (alignedPairs gt pr))) := by
  have hie : (alignedPairs gt pr).isEmpty = false :=
    List.isEmpty_eq_false.mpr h
  simp [sMAPE, hie]

/-- On overlapping series, MSE succeeds and returns the mean squared term. -/
theorem mse_ok_of_ne (gt pr : TimeSeries) (h : alignedPairs gt pr ≠ []) :
    mse gt pr = .ok (mean (pairTerms sqTerm (alignedPairs gt pr))) := by
  have hie : (alignedPairs gt pr).isEmpty = false :=
    List.isEmpty_eq_false.mpr h
  simp [mse, hie]

/-- The RMSE of a nonempty series against itself is 0. -/
theorem rmse_self {S : TimeSeries} (hne : S ≠ []) (hnd : (tsTimes S).Nodup) :
    rmse S S = .ok 0 := by
  unfold rmse
  rw [mse_self hne hnd]
  norm_num

/-- Positivity of cadence and horizon for a validated config. -/
theorem configValid_pos {train : TimeSeries} {cfg : ForecastEvaluatorConfig}
    (hv : configValid train cfg = true) :
    0 < cfg.cadence ∧ 0 < cfg.horizon := by
  unfold configValid at hv
  simp only [Bool.and_eq_true, decide_eq_true_eq] at hv
  exact ⟨hv.1.1, hv.1.2⟩

/-! ### Claims -/

/-- C2: for every model, training series, test series and validated
EvaluatorConfig with `retrain_frequency = "never"`, the model's fit operation
is invoked exactly once over the entire evaluation run — the mandatory initial
fit on the training series, issued before any predict call — and never again,
no matter how many prediction windows follow. -/
theorem claim_C2 (m : Model) (train test : TimeSeries)
    (cfg : ForecastEvaluatorConfig) (hv : configValid train cfg = true)
    (hnone : cfg.retrain_freq = none) :
    (get_predict m train test cfg).1.countP isFitCall = 1 ∧
    ∃ rest, (get_predict m train test cfg).1 = EvalCall.fit train :: rest ∧
      ∀ c ∈ rest, isFitCall c = false := by
  rcases hfit : m.fit train with e | u
  · have hgp : get_predict m train test cfg =
        ([EvalCall.fit train],
          .error (EvalError.modelFit (trainEnd train) 0 e)) := by
      simp [get_predict, hv, hfit]
    rw [hgp]
    exact ⟨by simp [isFitCall], [], rfl, by simp⟩
  · cases hie : test.isEmpty
    · have h3 : test ≠ [] := List.isEmpty_eq_false.mp hie
      have hrun := get_predict_run hv hfit h3
      have hnofit := @evalLoop_noFit m train test cfg
        (testEnd test) hnone (testEnd test + 1 - testStart test)
        (testStart test) 0 (trainEnd train)
      constructor
      · rw [hrun]
        simp only [List.countP_cons, isFitCall, if_pos]
        have : (evalLoop m train test cfg (testEnd test)
            (testEnd test + 1 - testStart test) (testStart test) 0
            (trainEnd train)).1.countP isFitCall = 0 := by
          rw [List.countP_eq_zero]
          intro c hc
          simp [hnofit c hc]
        simp [this]
      · exact ⟨_, by rw [hrun], hnofit⟩
    · have hgp : get_predict m train test cfg =
          ([EvalCall.fit train], .ok []) := by
        simp [get_predict, hv, hfit, hie]
      rw [hgp]
      exact ⟨by simp [isFitCall], [], rfl, by simp⟩

/-- Witness for C2 at a concrete model, series and config. -/
theorem claim_C2_witness :
    (get_predict mZero train100 test48 cfg24).1.countP isFitCall = 1 ∧
    ∃ rest, (get_predict mZero train100 test48 cfg24).1 =
        EvalCall.fit train100 :: rest ∧
      ∀ c ∈ rest, isFitCall c = false :=
  claim_C2 mZero train100 test48 cfg24 rfl rfl

/-- C5: scoring any nonempty (duplicate-free) series against itself yields
exactly 0 for both RMSE and sMAPE. -/
theorem claim_C5 (S : TimeSeries) (hne : S ≠ []) (hnd : (tsTimes S).Nodup) :
    rmse S S = .ok 0 ∧ sMAPE S S = .ok 0 :=
  ⟨rmse_self hne hnd, sMAPE_self hne hnd⟩

/-- Witness for C5 at a concrete one-point series. -/
theorem claim_C5_witness :
    rmse [(0, [(1 : ℚ)])] [(0, [(1 : ℚ)])] = .ok 0 ∧
    sMAPE [(0, [(1 : ℚ)])] [(0, [(1 : ℚ)])] = .ok 0 :=
  claim_C5 [(0, [(1 : ℚ)])] (by simp) (by simp [tsTimes])

/-- C6: the sMAPE computation is total — on overlapping series it returns the
mean of the per-value terms; a value pair where both actual and predicted are
exactly zero skips the division and contributes exactly 0; and sMAPE of
ground truth `[0]` against predicted `[0]` is 0 (no NaN is possible since the
division by a zero denominator is never performed). -/
theorem claim_C6 :
    (∀ a p : ℚ, a = 0 → p = 0 → smapeTerm a p = 0) ∧
    sMAPE [(0, [(0 : ℚ)])] [(0, [(0 : ℚ)])] = .ok 0 ∧
    (∀ gt pr : TimeSeries, alignedPairs gt pr ≠ [] →
      sMAPE gt pr = .ok (mean (pairTerms smapeTerm (alignedPairs gt pr)))) := by
  refine ⟨?_, ?_, sMAPE_ok_of_ne⟩
  · intro a p ha hp
    subst ha
    subst hp
    exact smapeTerm_self 0
  · exact sMAPE_self (by simp) (by simp [tsTimes])

/-- Witness for C6 at the all-zero value pair. -/
theorem claim_C6_witness :
    smapeTerm 0 0 = 0 ∧
    sMAPE [(0, [(0 : ℚ)])] [(0, [(0 : ℚ)])] = .ok 0 :=
  ⟨claim_C6.1 0 0 rfl rfl, claim_C6.2.1⟩

/-- C7: both metrics operate only on the timestamp intersection of the two
series — rows at non-shared timestamps are ignored — and fail with
`AlignmentError` if and only if the series share no timestamp. -/
theorem claim_C7 (gt pr : TimeSeries) :
    (sMAPE gt pr = .error EvalError.alignment ↔
      ∀ s ∈ tsTimes gt, s ∉ tsTimes pr) ∧
    (rmse gt pr = .error EvalError.alignment ↔
      ∀ s ∈ tsTimes gt, s ∉ tsTimes pr) ∧
    sMAPE gt (pr.filter (fun p => decide (p.1 ∈ tsTimes gt))) = sMAPE gt pr ∧
    sMAPE (gt.filter (fun g => decide (g.1 ∈ tsTimes pr))) pr = sMAPE gt pr ∧
    rmse gt (pr.filter (fun p => decide (p.1 ∈ tsTimes gt))) = rmse gt pr ∧
    rmse (gt.filter (fun g => decide (g.1 ∈ tsTimes pr))) pr = rmse gt pr := by
  refine ⟨sMAPE_error_iff gt pr,
    (rmse_error_iff_mse gt pr).trans (mse_error_iff gt pr), ?_, ?_, ?_, ?_⟩
  · unfold sMAPE
    rw [alignedPairs_filter_right]
  · unfold sMAPE
    rw [alignedPairs_filter_left]
  · unfold rmse mse
    rw [alignedPairs_filter_right]
  · unfold rmse mse
    rw [alignedPairs_filter_left]

/-- Witness for C7 at concrete non-overlapping series. -/
theorem claim_C7_witness :
    (sMAPE [(0, [(1 : ℚ)])] [(1, [(2 : ℚ)])] = .error EvalError.alignment ↔
      ∀ s ∈ tsTimes [(0, [(1 : ℚ)])], s ∉ tsTimes [(1, [(2 : ℚ)])]) ∧
    (rmse [(0, [(1 : ℚ)])] [(1, [(2 : ℚ)])] = .error EvalError.alignment ↔
      ∀ s ∈ tsTimes [(0, [(1 : ℚ)])], s ∉ tsTimes [(1, [(2 : ℚ)])]) ∧
    sMAPE [(0, [(1 : ℚ)])]
        (List.filter (fun p => decide (p.1 ∈ tsTimes [(0, [(1 : ℚ)])]))
          [(1, [(2 : ℚ)])]) =
      sMAPE [(0, [(1 : ℚ)])] [(1, [(2 : ℚ)])] ∧
    sMAPE (List.filter (fun g => decide (g.1 ∈ tsTimes [(1, [(2 : ℚ)])]))
        [(0, [(1 : ℚ)])]) [(1, [(2 : ℚ)])] =
      sMAPE [(0, [(1 : ℚ)])] [(1, [(2 : ℚ)])] ∧
    rmse [(0, [(1 : ℚ)])]
        (List.filter (fun p => decide (p.1 ∈ tsTimes [(0, [(1 : ℚ)])]))
          [(1, [(2 : ℚ)])]) =
      rmse [(0, [(1 : ℚ)])] [(1, [(2 : ℚ)])] ∧
    rmse (List.filter (fun g => decide (g.1 ∈ tsTimes [(1, [(2 : ℚ)])]))
        [(0, [(1 : ℚ)])]) [(1, [(2 : ℚ)])] =
      rmse [(0, [(1 : ℚ)])] [(1, [(2 : ℚ)])] :=
  claim_C7 [(0, [(1 : ℚ)])] [(1, [(2 : ℚ)])]

/-- C3: for every evaluation run that returns a result — any model, any
config — the result's timestamps form a subsequence of the sorted test
series' timestamps: no timestamp appears twice, none lies outside the test
series, and each retained timestamp comes from the most recent window
covering it, the one issued at the unique start `t` with
`t ≤ s < t + cadence`. -/
theorem claim_C3 (m : Model) (train test : TimeSeries)
    (cfg : ForecastEvaluatorConfig) (hs : tsSorted test) :
    ∀ res, (get_predict m train test cfg).2 = .ok res →
      (res.map Prod.fst).Sublist (tsTimes test) ∧
      (res.map Prod.fst).Nodup ∧
      ∀ s ∈ res.map Prod.fst, ∃ t ∈ runStarts test cfg,
        t ≤ s ∧ s < t + cfg.cadence := by
  intro res hres
  have hnodup : (tsTimes test).Nodup :=
    hs.imp (fun hab => ne_of_lt hab)
  by_cases hv : configValid train cfg = true
  · rcases hfit : m.fit train with e | u
    · simp [get_predict, hv, hfit] at hres
    · cases hie : test.isEmpty
      · have h3 : test ≠ [] := List.isEmpty_eq_false.mp hie
        have hrun := get_predict_run hv hfit h3
        rw [hrun] at hres
        have hsub := evalLoop_res_sublist (testEnd test)
          (testEnd test + 1 - testStart test) (testStart test) 0
          (trainEnd train) res hres
        have hA := flatten_filter_sublist (min cfg.cadence cfg.horizon)
          (loopStarts cfg.cadence (testEnd test + 1 - testStart test)
            (testStart test) (testEnd test)) (tsTimes test) hs
          (loopStarts_pairwise cfg.cadence (min cfg.cadence cfg.horizon)
            (min_le_left _ _) _ _ _)
        have hflat : ((loopStarts cfg.cadence
            (testEnd test + 1 - testStart test) (testStart test)
            (testEnd test)).map (retainedTimes test cfg)).flatten.Sublist
            (tsTimes test) := hA
        have htrans := hsub.trans hflat
        refine ⟨htrans, htrans.nodup hnodup, ?_⟩
        intro s hsmem
        have hsflat := hsub.subset hsmem
        rcases List.mem_flatten.mp hsflat with ⟨l, hl, hsl⟩
        rcases List.mem_map.mp hl with ⟨t, htmem, rfl⟩
        rcases List.mem_filter.mp hsl with ⟨_, hcond⟩
        simp only [Bool.and_eq_true, decide_eq_true_eq] at hcond
        refine ⟨t, htmem, hcond.1, ?_⟩
        have := hcond.2
        omega
      · have h3 : test = [] := List.isEmpty_iff.mp hie
        subst h3
        simp [get_predict, hv, hfit] at hres
        subst hres
        simp
  · simp [get_predict, hv] at hres

/-- Witness for C3 at a concrete model and run. -/
theorem claim_C3_witness :
    (test48.map Prod.fst).Sublist (tsTimes test48) ∧
    (test48.map Prod.fst).Nodup ∧
    ∀ s ∈ test48.map Prod.fst, ∃ t ∈ runStarts test48 cfg24,
      t ≤ s ∧ s < t + cfg24.cadence :=
  claim_C3 mZero train100 test48 cfg24 (by decide) test48 (by decide)

/-- C9: validation rejects a zero cadence with a `ConfigurationError`; with a
positive cadence the loop terminates — its outcome is independent of any
sufficient fuel bound — visiting window starts that begin at the first
timestamp after the training range, strictly increase by exactly the cadence,
never pass the final ground-truth timestamp, and stop as soon as they would;
a (possibly partial) final window is issued exactly when it still holds at
least one test timestamp. -/
theorem claim_C9 :
    (∀ (m : Model) (train test : TimeSeries) (cfg : ForecastEvaluatorConfig),
      cfg.cadence = 0 →
      get_predict m train test cfg =
        ([], .error (EvalError.configuration "invalid EvaluatorConfig"))) ∧
    (∀ (m : Model) (train test : TimeSeries) (cfg : ForecastEvaluatorConfig)
      (tEnd : Nat), 0 < cfg.cadence →
      ∀ fuel fuel' t iter lr, tEnd + 1 - t ≤ fuel → tEnd + 1 - t ≤ fuel' →
        evalLoop m train test cfg tEnd fuel t iter lr =
          evalLoop m train test cfg tEnd fuel' t iter lr) ∧
    (∀ c fuel t tEnd, 0 < c →
      (loopStarts c fuel t tEnd).Chain' (fun a b => b = a + c) ∧
      (∀ s ∈ loopStarts c fuel t tEnd, t ≤ s ∧ s ≤ tEnd) ∧
      (loopStarts c fuel t tEnd).Pairwise (· < ·) ∧
      (tEnd < t → loopStarts c fuel t tEnd = [])) ∧
    (∀ (test : TimeSeries) (cfg : ForecastEvaluatorConfig), test ≠ [] →
      tsSorted test → (runStarts test cfg).head? = some (testStart test)) ∧
    (∀ (m : Model) (train test : TimeSeries) (cfg : ForecastEvaluatorConfig),
      cfg.retrain_freq = none → PredictConforms m → m.fit train = .ok () →
      configValid train cfg = true → test ≠ [] →
      (get_predict m train test cfg).1 =
        EvalCall.fit train :: predictCallsOf test cfg (runStarts test cfg)) := by
  refine ⟨?_, ?_, ?_, ?_, ?_⟩
  · intro m train test cfg hc
    simp [get_predict, configValid, hc]
  · intro m train test cfg tEnd hc fuel fuel' t iter lr h1 h2
    exact evalLoop_fuel tEnd hc fuel fuel' t iter lr h1 h2
  · intro c fuel t tEnd hc
    exact ⟨loopStarts_chain c fuel t tEnd, loopStarts_mem_bounds c fuel t tEnd,
      loopStarts_sorted c hc fuel t tEnd,
      fun h => loopStarts_eq_nil c fuel t tEnd h⟩
  · intro test cfg hne hs
    exact runStarts_head cfg hne hs
  · intro m train test cfg hnone hp hfit hv hne
    rw [get_predict_run hv hfit hne]
    rw [evalLoop_calls (testEnd test) hnone hp]
    rfl

/-- Witness for C9 at concrete configs, series and fuels. -/
theorem claim_C9_witness :
    get_predict mZero train100 test48 ⟨24, 0, none, none⟩ =
      ([], .error (EvalError.configuration "invalid EvaluatorConfig")) ∧
    evalLoop mZero train100 test48 cfg24 147 48 100 0 99 =
      evalLoop mZero train100 test48 cfg24 147 60 100 0 99 ∧
    (loopStarts 24 48 100 147).Chain' (fun a b => b = a + 24) ∧
    (runStarts test48 cfg24).head? = some (testStart test48) ∧
    (get_predict mZero train100 test48 cfg24).1 =
      EvalCall.fit train100 ::
        predictCallsOf test48 cfg24 (runStarts test48 cfg24) :=
  ⟨claim_C9.1 mZero train100 test48 ⟨24, 0, none, none⟩ rfl,
   claim_C9.2.1 mZero train100 test48 cfg24 147 (by decide) 48 60 100 0 99
     (by decide) (by decide),
   (claim_C9.2.2.1 24 48 100 147 (by decide)).1,
   claim_C9.2.2.2.1 test48 cfg24 (by decide) (by decide),
   claim_C9.2.2.2.2 mZero train100 test48 cfg24 rfl
     (fun ts => ⟨ts.map (fun _ => [(0 : ℚ)]), rfl, by simp⟩) rfl rfl
     (by decide)⟩

/-- C1: on the §8 scenario (100 hourly training points, 48 hourly test
points, horizon = cadence = 24, never retrain) a full run with any conforming
model issues exactly 1 fit call and exactly 2 predict calls — for the windows
starting at the test start 100 and at 100 + 24 — and returns 48
(timestamp, prediction) pairs whose timestamps are exactly the 48 test
timestamps with no gaps; in general, when horizon = cadence the result's
timestamps equal the concatenation of every window's full predicted timestamp
set, with no overlaps. -/
theorem claim_C1 :
    (∀ m : Model, FitOk m → PredictConforms m →
      (get_predict m train100 test48 cfg24).1 =
        [EvalCall.fit train100,
         EvalCall.predict (windowTimes test48 24 100),
         EvalCall.predict (windowTimes test48 24 124)] ∧
      (get_predict m train100 test48 cfg24).1.countP isFitCall = 1 ∧
      (get_predict m train100 test48 cfg24).1.countP
        (fun c => !isFitCall c) = 2 ∧
      windowTimes test48 24 100 = (List.range 24).map (fun i => 100 + i) ∧
      windowTimes test48 24 124 = (List.range 24).map (fun i => 124 + i) ∧
      ∃ res, (get_predict m train100 test48 cfg24).2 = .ok res ∧
        res.map Prod.fst = tsTimes test48 ∧ res.length = 48) ∧
    (∀ (m : Model) (train test : TimeSeries) (cfg : ForecastEvaluatorConfig),
      tsSorted test → configValid train cfg = true → FitOk m →
      PredictConforms m → cfg.horizon = cfg.cadence →
      ∀ res, (get_predict m train test cfg).2 = .ok res →
        res.map Prod.fst =
          ((runStarts test cfg).map
            (fun t => windowTimes test cfg.horizon t)).flatten ∧
        (res.map Prod.fst).Nodup) := by
  constructor
  · intro m hfit hp
    have hv : configValid train100 cfg24 = true := rfl
    have h3 : test48 ≠ [] := by decide
    have hrun := get_predict_run hv (hfit train100) h3
    have h1 : (get_predict m train100 test48 cfg24).1 =
        EvalCall.fit train100 ::
          (evalLoop m train100 test48 cfg24 (testEnd test48)
            (testEnd test48 + 1 - testStart test48) (testStart test48) 0
            (trainEnd train100)).1 := by
      rw [hrun]
    rw [evalLoop_calls (testEnd test48) rfl hp] at h1
    obtain ⟨calls, res, hloop, hmap⟩ := evalLoop_conforms train100 test48
      cfg24 (testEnd test48) hfit hp (testEnd test48 + 1 - testStart test48)
      (testStart test48) 0 (trainEnd train100)
    have h2 : (get_predict m train100 test48 cfg24).2 =
        (evalLoop m train100 test48 cfg24 (testEnd test48)
          (testEnd test48 + 1 - testStart test48) (testStart test48) 0
          (trainEnd train100)).2 := by
      rw [hrun]
    refine ⟨by rw [h1]; decide, by rw [h1]; decide, by rw [h1]; decide,
      by decide, by decide, res, by rw [h2, hloop], by rw [hmap]; decide, ?_⟩
    have hlen : res.length = (res.map Prod.fst).length :=
      (List.length_map res Prod.fst).symm
    rw [hlen, hmap]
    decide
  · intro m train test cfg hs hv hfit hp heq res hres
    cases hie : test.isEmpty
    · have h3 : test ≠ [] := List.isEmpty_eq_false.mp hie
      have hrun := get_predict_run hv (hfit train) h3
      rw [hrun] at hres
      obtain ⟨calls, res', hloop, hmap⟩ := evalLoop_conforms train test cfg
        (testEnd test) hfit hp (testEnd test + 1 - testStart test)
        (testStart test) 0 (trainEnd train)
      rw [hloop] at hres
      simp only [Except.ok.injEq] at hres
      subst hres
      have hmin : retainedTimes test cfg =
          fun t => windowTimes test cfg.horizon t := by
        funext t
        unfold retainedTimes windowTimes
        rw [heq, min_self]
      constructor
      · rw [hmap, hmin]
        rfl
      · have hnodup : (tsTimes test).Nodup :=
          hs.imp (fun hab => ne_of_lt hab)
        have hA := flatten_filter_sublist (min cfg.cadence cfg.horizon)
          (loopStarts cfg.cadence (testEnd test + 1 - testStart test)
            (testStart test) (testEnd test)) (tsTimes test) hs
          (loopStarts_pairwise cfg.cadence (min cfg.cadence cfg.horizon)
            (min_le_left _ _) _ _ _)
        have hflat : ((loopStarts cfg.cadence
            (testEnd test + 1 - testStart test) (testStart test)
            (testEnd test)).map (retainedTimes test cfg)).flatten.Sublist
            (tsTimes test) := hA
        rw [hmap]
        exact hflat.nodup hnodup
    · have h4 : test = [] := List.isEmpty_iff.mp hie
      subst h4
      simp [get_predict, hv, hfit train] at hres
      subst hres
      constructor
      · simp [runStarts, testStart, testEnd, tsTimes, loopStarts, windowTimes]
      · simp

/-- Witness for C1 at the all-zero conforming model. -/
theorem claim_C1_witness :
    (get_predict mZero train100 test48 cfg24).1 =
      [EvalCall.fit train100,
       EvalCall.predict (windowTimes test48 24 100),
       EvalCall.predict (windowTimes test48 24 124)] ∧
    (get_predict mZero train100 test48 cfg24).1.countP isFitCall = 1 ∧
    (get_predict mZero train100 test48 cfg24).1.countP
      (fun c => !isFitCall c) = 2 ∧
    windowTimes test48 24 100 = (List.range 24).map (fun i => 100 + i) ∧
    windowTimes test48 24 124 = (List.range 24).map (fun i => 124 + i) ∧
    ∃ res, (get_predict mZero train100 test48 cfg24).2 = .ok res ∧
      res.map Prod.fst = tsTimes test48 ∧ res.length = 48 :=
  claim_C1.1 mZero (fun _ => rfl)
    (fun ts => ⟨ts.map (fun _ => [(0 : ℚ)]), rfl, by simp⟩)

/-- C4: on the §8 scenario with horizon = 12 < cadence = 24, every timestamp
in `[t + horizon, t + cadence)` of each window is left unpredicted — no value
is fabricated — so exactly 24 of the 48 test timestamps are populated, and
scoring against the full ground truth restricts to the populated timestamp
intersection (24 aligned pairs). -/
theorem claim_C4 :
    ∀ m : Model, FitOk m → PredictConforms m →
      ∃ res, (get_predict m train100 test48 cfg12).2 = .ok res ∧
        res.map Prod.fst =
          (List.range 12).map (fun i => 100 + i) ++
            (List.range 12).map (fun i => 124 + i) ∧
        res.length = 24 ∧
        (∀ t ∈ runStarts test48 cfg12, ∀ s, t + cfg12.horizon ≤ s →
          s < t + cfg12.cadence → s ∉ res.map Prod.fst) ∧
        (alignedPairs test48 res).length = 24 := by
  intro m hfit hp
  have hv : configValid train100 cfg12 = true := rfl
  have h3 : test48 ≠ [] := by decide
  have hrun := get_predict_run hv (hfit train100) h3
  have h2 : (get_predict m train100 test48 cfg12).2 =
      (evalLoop m train100 test48 cfg12 (testEnd test48)
        (testEnd test48 + 1 - testStart test48) (testStart test48) 0
        (trainEnd train100)).2 := by
    rw [hrun]
  obtain ⟨calls, res, hloop, hmap⟩ := evalLoop_conforms train100 test48 cfg12
    (testEnd test48) hfit hp (testEnd test48 + 1 - testStart test48)
    (testStart test48) 0 (trainEnd train100)
  have hconc : res.map Prod.fst =
      (List.range 12).map (fun i => 100 + i) ++
        (List.range 12).map (fun i => 124 + i) := by
    rw [hmap]
    decide
  refine ⟨res, by rw [h2, hloop], hconc, ?_, ?_, ?_⟩
  · have hlen : res.length = (res.map Prod.fst).length :=
      (List.length_map res Prod.fst).symm
    rw [hlen, hconc]
    decide
  · intro t ht s hs1 hs2 hmem
    have hh : cfg12.horizon = 12 := rfl
    have hc : cfg12.cadence = 24 := rfl
    rw [hh] at hs1
    rw [hc] at hs2
    have hstarts : runStarts test48 cfg12 = [100, 124] := by decide
    rw [hstarts] at ht
    rw [hconc] at hmem
    simp only [List.mem_append, List.mem_map, List.mem_range] at hmem
    rcases List.mem_cons.mp ht with h | h
    · subst h
      rcases hmem with ⟨i, hi, rfl⟩ | ⟨i, hi, rfl⟩ <;> omega
    · rcases List.mem_cons.mp h with h | h
      · subst h
        rcases hmem with ⟨i, hi, rfl⟩ | ⟨i, hi, rfl⟩ <;> omega
      · simp at h
  · rw [alignedPairs_length]
    have htt : tsTimes res = res.map Prod.fst := rfl
    rw [htt, hconc]
    decide

/-- Witness for C4 at the all-zero conforming model. -/
theorem claim_C4_witness :
    ∃ res, (get_predict mZero train100 test48 cfg12).2 = .ok res ∧
      res.map Prod.fst =
        (List.range 12).map (fun i => 100 + i) ++
          (List.range 12).map (fun i => 124 + i) ∧
      res.length = 24 ∧
      (∀ t ∈ runStarts test48 cfg12, ∀ s, t + cfg12.horizon ≤ s →
        s < t + cfg12.cadence → s ∉ res.map Prod.fst) ∧
      (alignedPairs test48 res).length = 24 :=
  claim_C4 mZero (fun _ => rfl)
    (fun ts => ⟨ts.map (fun _ => [(0 : ℚ)]), rfl, by simp⟩)

/-- C10: the evaluator's own output on a sorted nonempty test series with a
validated config and a conforming model always shares a timestamp with that
test series, so scoring it against the test series never raises an alignment
error — for either metric, and for each metric in turn, since scoring is a
pure function of its two arguments. -/
theorem claim_C10 (m : Model) (train test : TimeSeries)
    (cfg : ForecastEvaluatorConfig) (hs : tsSorted test) (hne : test ≠ [])
    (hv : configValid train cfg = true) (hf : FitOk m)
    (hp : PredictConforms m) :
    ∀ res, (get_predict m train test cfg).2 = .ok res →
      (∃ q, sMAPE test res = .ok q) ∧ (∃ x, rmse test res = .ok x) ∧
      (∀ metric, ∃ y, evaluate metric test res = .ok y) := by
  intro res hres
  have hrun := get_predict_run hv (hf train) hne
  rw [hrun] at hres
  obtain ⟨calls, res', hloop, hmap⟩ := evalLoop_conforms train test cfg
    (testEnd test) hf hp (testEnd test + 1 - testStart test) (testStart test)
    0 (trainEnd train)
  rw [hloop] at hres
  simp only [Except.ok.injEq] at hres
  subst hres
  have hle := testStart_le_testEnd hne hs
  have hfuel : testEnd test + 1 - testStart test =
      (testEnd test - testStart test) + 1 := by omega
  have hpos := configValid_pos hv
  have hstart : testStart test ∈ res'.map Prod.fst := by
    rw [hmap, hfuel]
    simp only [loopStarts, if_pos hle, List.map_cons, List.flatten_cons]
    apply List.mem_append_left
    unfold retainedTimes
    apply List.mem_filter.mpr
    refine ⟨testStart_mem hne, ?_⟩
    simp only [Bool.and_eq_true, decide_eq_true_eq]
    refine ⟨le_refl _, ?_⟩
    have h5 := hpos.1
    have h6 := hpos.2
    omega
  have hpairs : alignedPairs test res' ≠ [] := by
    intro hnil
    exact (alignedPairs_eq_nil_iff test res').mp hnil (testStart test)
      (testStart_mem hne) hstart
  refine ⟨⟨_, sMAPE_ok_of_ne test res' hpairs⟩,
    ⟨Real.sqrt ((mean (pairTerms sqTerm (alignedPairs test res')) : ℚ) : ℝ),
      ?_⟩, ?_⟩
  · unfold rmse
    rw [mse_ok_of_ne test res' hpairs]
  · intro metric
    cases metric
    · refine ⟨Real.sqrt
        ((mean (pairTerms sqTerm (alignedPairs test res')) : ℚ) : ℝ), ?_⟩
      unfold evaluate rmse
      rw [mse_ok_of_ne test res' hpairs]
    · refine ⟨((mean (pairTerms smapeTerm (alignedPairs test res')) : ℚ) : ℝ),
        ?_⟩
      unfold evaluate
      rw [sMAPE_ok_of_ne test res' hpairs]
      rfl

/-- If the model's predict operation succeeds on every earlier window but
fails on the window at the `k`-th visited start, the loop aborts there: the
call log ends at the failing predict call and the error carries the failing
window's start time and loop iteration index, with no partial results. -/
theorem evalLoop_predict_fail {m : Model} {train test : TimeSeries}
    {cfg : ForecastEvaluatorConfig} (tEnd : Nat)
    (hnone : cfg.retrain_freq = none) :
    ∀ fuel t iter lr k tk e,
      (loopStarts cfg.cadence fuel t tEnd)[k]? = some tk →
      (∀ j, j < k → ∀ tj, (loopStarts cfg.cadence fuel t tEnd)[j]? = some tj →
        windowTimes test cfg.horizon tj ≠ [] →
        ∃ vs, m.predict (windowTimes test cfg.horizon tj) = .ok vs) →
      windowTimes test cfg.horizon tk ≠ [] →
      m.predict (windowTimes test cfg.horizon tk) = .error e →
      evalLoop m train test cfg tEnd fuel t iter lr =
        (predictCallsOf test cfg
            ((loopStarts cfg.cadence fuel t tEnd).take k) ++
          [EvalCall.predict (windowTimes test cfg.horizon tk)],
         .error (EvalError.modelPredict tk (iter + k) e)) := by
  intro fuel
  induction fuel with
  | zero =>
    intro t iter lr k tk e hk
    simp [loopStarts] at hk
  | succ fuel ih =>
    intro t iter lr k tk e hk hok hw hfail
    by_cases ht : t ≤ tEnd
    · have hstarts : loopStarts cfg.cadence (fuel + 1) t tEnd =
          t :: loopStarts cfg.cadence fuel (t + cfg.cadence) tEnd := by
        simp [loopStarts, ht]
      rw [hstarts] at hk hok
      rw [hstarts]
      cases k with
      | zero =>
        have htk : tk = t := by simpa using hk.symm
        subst htk
        have hwie : (windowTimes test cfg.horizon tk).isEmpty = false :=
          List.isEmpty_eq_false.mpr hw
        have hps : predictStep m test cfg tk iter =
            ([EvalCall.predict (windowTimes test cfg.horizon tk)],
              .error (EvalError.modelPredict tk iter e)) := by
          simp only [predictStep, hwie, Bool.false_eq_true, if_false, hfail]
        simp [evalLoop, ht, retrainStep_none hnone, hps, predictCallsOf]
      | succ j =>
        rw [List.getElem?_cons_succ] at hk
        have hok' : ∀ j', j' < j → ∀ tj,
            (loopStarts cfg.cadence fuel (t + cfg.cadence) tEnd)[j']? =
              some tj →
            windowTimes test cfg.horizon tj ≠ [] →
            ∃ vs, m.predict (windowTimes test cfg.horizon tj) = .ok vs := by
          intro j' hj' tj hj'eq hwj
          exact hok (j' + 1) (by omega) tj
            (by rw [List.getElem?_cons_succ]; exact hj'eq) hwj
        have hrec := ih (t + cfg.cadence) (iter + 1) lr j tk e hk hok' hw hfail
        have hiter : iter + 1 + j = iter + (j + 1) := by omega
        rw [List.take_succ_cons]
        by_cases hwt : (windowTimes test cfg.horizon t).isEmpty
        · have hps : predictStep m test cfg t iter = ([], .ok []) := by
            simp [predictStep, hwt]
          have hwnil : windowTimes test cfg.horizon t = [] :=
            List.isEmpty_iff.mp hwt
          have hcalls : predictCallsOf test cfg
              (t :: (loopStarts cfg.cadence fuel (t + cfg.cadence) tEnd).take
                j) = predictCallsOf test cfg
              ((loopStarts cfg.cadence fuel (t + cfg.cadence) tEnd).take j) := by
            simp [predictCallsOf, List.filterMap_cons, hwnil]
          rw [hcalls]
          simp only [evalLoop, if_pos ht, retrainStep_none hnone, hps, hrec,
            List.nil_append, hiter]
        · obtain ⟨vs, hvs⟩ := hok 0 (by omega) t (by simp)
            (List.isEmpty_eq_false.mp (by simpa using hwt))
          have hps : predictStep m test cfg t iter =
              ([EvalCall.predict (windowTimes test cfg.horizon t)],
                .ok (retainedOf ((windowTimes test cfg.horizon t).zip vs)
                  cfg.cadence t)) := by
            simp only [predictStep]
            rw [if_neg hwt, hvs]
          have hwnil : windowTimes test cfg.horizon t ≠ [] :=
            List.isEmpty_eq_false.mp (by simpa using hwt)
          have hcalls : predictCallsOf test cfg
              (t :: (loopStarts cfg.cadence fuel (t + cfg.cadence) tEnd).take
                j) = EvalCall.predict (windowTimes test cfg.horizon t) ::
              predictCallsOf test cfg
                ((loopStarts cfg.cadence fuel (t + cfg.cadence) tEnd).take
                  j) := by
            simp [predictCallsOf, List.filterMap_cons, hwnil]
          rw [hcalls]
          simp only [evalLoop, if_pos ht, retrainStep_none hnone, hps, hrec,
            List.nil_append, hiter, List.cons_append]
    · rw [loopStarts_eq_nil cfg.cadence (fuel + 1) t tEnd
        (Nat.not_le.mp ht)] at hk
      simp at hk

/-- A run that returns a result issued only successful calls: any fit call
(initial or mid-loop retrain) or predict call failing at any iteration makes
a successful outcome impossible. -/
theorem get_predict_ok_calls {m : Model} {train test : TimeSeries}
    {cfg : ForecastEvaluatorConfig} {calls : List EvalCall}
    {res : List (Nat × List ℚ)}
    (h : get_predict m train test cfg = (calls, .ok res)) :
    ∀ c ∈ calls, callOk m c := by
  by_cases hv : configValid train cfg = true
  · rcases hfit : m.fit train with e | u
    · have hgp : get_predict m train test cfg =
          ([EvalCall.fit train],
            .error (EvalError.modelFit (trainEnd train) 0 e)) := by
        simp [get_predict, hv, hfit]
      rw [hgp] at h
      simp at h
    · cases u
      have hfitOk : callOk m (EvalCall.fit train) := hfit
      cases hie : test.isEmpty
      · have hrun := get_predict_run hv hfit (List.isEmpty_eq_false.mp hie)
        rw [hrun, Prod.mk.injEq] at h
        obtain ⟨h1, h2⟩ := h
        intro c hc
        rw [← h1] at hc
        rcases List.mem_cons.mp hc with rfl | hc1
        · exact hfitOk
        · exact @evalLoop_ok_calls m train test cfg (testEnd test)
            (testEnd test + 1 - testStart test) (testStart test) 0
            (trainEnd train) _ res (by rw [← h2]) c hc1
      · have hgp : get_predict m train test cfg =
            ([EvalCall.fit train], .ok []) := by
          simp [get_predict, hv, hfit, hie]
        rw [hgp, Prod.mk.injEq] at h
        intro c hc
        rw [← h.1] at hc
        rcases List.mem_singleton.mp hc with rfl
        exact hfitOk
  · have hgp : get_predict m train test cfg =
        ([], .error (EvalError.configuration "invalid EvaluatorConfig")) := by
      simp [get_predict, hv]
    rw [hgp] at h
    simp at h

/-- An erroring run is either a configuration rejection with no calls issued,
or its call log ends exactly at the first failing call — every earlier call
succeeded and no further window was processed — with the surfaced error
naming the failing call's kind and data (the initial fit on the training
series, a retrain fit on the data observed so far, or a predict on its
window), its timestamp `testStart + i·cadence`, and its loop iteration index
`i`; no partial result sequence is returned. -/
theorem get_predict_error_log {m : Model} {train test : TimeSeries}
    {cfg : ForecastEvaluatorConfig} {calls : List EvalCall} {err : EvalError}
    (h : get_predict m train test cfg = (calls, .error err)) :
    (∃ msg, err = EvalError.configuration msg ∧ calls = []) ∨
    ∃ pre, (∀ c ∈ pre, callOk m c) ∧
      ((∃ d tf i e, err = EvalError.modelFit tf i e ∧
          calls = pre ++ [EvalCall.fit d] ∧ m.fit d = .error e ∧
          ((i = 0 ∧ d = train ∧ tf = trainEnd train) ∨
           (d = observedUpTo train test tf ∧
            tf = testStart test + i * cfg.cadence))) ∨
       (∃ tf i e, err = EvalError.modelPredict tf i e ∧
          calls = pre ++
            [EvalCall.predict (windowTimes test cfg.horizon tf)] ∧
          m.predict (windowTimes test cfg.horizon tf) = .error e ∧
          windowTimes test cfg.horizon tf ≠ [] ∧
          tf = testStart test + i * cfg.cadence)) := by
  by_cases hv : configValid train cfg = true
  · rcases hfit : m.fit train with e | u
    · have hgp : get_predict m train test cfg =
          ([EvalCall.fit train],
            .error (EvalError.modelFit (trainEnd train) 0 e)) := by
        simp [get_predict, hv, hfit]
      rw [hgp, Prod.mk.injEq] at h
      obtain ⟨h1, h2⟩ := h
      simp only [Except.error.injEq] at h2
      right
      refine ⟨[], by simp, Or.inl ⟨train, trainEnd train, 0, e, h2.symm, ?_,
        hfit, Or.inl ⟨rfl, rfl, rfl⟩⟩⟩
      rw [← h1]
      simp
    · cases u
      have hfitOk : callOk m (EvalCall.fit train) := hfit
      cases hie : test.isEmpty
      · have hrun := get_predict_run hv hfit (List.isEmpty_eq_false.mp hie)
        rw [hrun, Prod.mk.injEq] at h
        obtain ⟨h1, h2⟩ := h
        have hLe : evalLoop m train test cfg (testEnd test)
            (testEnd test + 1 - testStart test) (testStart test) 0
            (trainEnd train) =
            ((evalLoop m train test cfg (testEnd test)
              (testEnd test + 1 - testStart test) (testStart test) 0
              (trainEnd train)).1, .error err) := by
          rw [← h2]
        obtain ⟨pre, hpre, hcase⟩ := evalLoop_error_log (testEnd test)
          (testEnd test + 1 - testStart test) (testStart test) 0
          (trainEnd train) _ err hLe
        right
        refine ⟨EvalCall.fit train :: pre, ?_, ?_⟩
        · intro c hc
          rcases List.mem_cons.mp hc with rfl | hc1
          · exact hfitOk
          · exact hpre c hc1
        · rcases hcase with ⟨tf, i, e, herr, hcalls, hm, _, htf⟩ |
            ⟨tf, i, e, herr, hcalls, hm, hw, _, htf⟩
          · refine Or.inl ⟨observedUpTo train test tf, tf, i, e, herr, ?_, hm,
              Or.inr ⟨rfl, by rw [htf]; simp⟩⟩
            rw [← h1, hcalls]
            rfl
          · refine Or.inr ⟨tf, i, e, herr, ?_, hm, hw, by rw [htf]; simp⟩
            rw [← h1, hcalls]
            rfl
      · have hgp : get_predict m train test cfg =
            ([EvalCall.fit train], .ok []) := by
          simp [get_predict, hv, hfit, hie]
        rw [hgp, Prod.mk.injEq] at h
        exact absurd h.2 (by simp)
  · have hgp : get_predict m train test cfg =
        ([], .error (EvalError.configuration "invalid EvaluatorConfig")) := by
      simp [get_predict, hv]
    rw [hgp, Prod.mk.injEq] at h
    obtain ⟨h1, h2⟩ := h
    simp only [Except.error.injEq] at h2
    exact Or.inl ⟨"invalid EvaluatorConfig", h2.symm, h1.symm⟩

/-- C8: any fit or predict failure at any loop iteration aborts the whole run
at once, surfacing that error with the failing timestamp and loop iteration
index and returning no partial result sequence.  Part one: a failing initial
fit aborts with exactly that call logged.  Part two: with retraining never, a
predict failing at the `k`-th window yields exactly the per-window call log
up to the failing call and the error `modelPredict t_k k e`.  Part three: a
successful run implies every issued call (initial fit, every mid-loop retrain
fit, every predict) succeeded — so any failing call at any iteration forces
an error outcome.  Part four: for any model and any retraining schedule, an
erroring run's call log ends exactly at the first failing call — initial fit,
mid-loop retrain fit, or predict — every earlier call succeeded, no further
window was processed or silently skipped, and the error names the failing
call's data, timestamp and iteration index. -/
theorem claim_C8 :
    (∀ (m : Model) (train test : TimeSeries) (cfg : ForecastEvaluatorConfig)
      (e : String), configValid train cfg = true → m.fit train = .error e →
      get_predict m train test cfg =
        ([EvalCall.fit train],
          .error (EvalError.modelFit (trainEnd train) 0 e))) ∧
    (∀ (m : Model) (train test : TimeSeries) (cfg : ForecastEvaluatorConfig)
      (k tk : Nat) (e : String),
      configValid train cfg = true → cfg.retrain_freq = none →
      m.fit train = .ok () → test ≠ [] →
      (runStarts test cfg)[k]? = some tk →
      (∀ j, j < k → ∀ tj, (runStarts test cfg)[j]? = some tj →
        windowTimes test cfg.horizon tj ≠ [] →
        ∃ vs, m.predict (windowTimes test cfg.horizon tj) = .ok vs) →
      windowTimes test cfg.horizon tk ≠ [] →
      m.predict (windowTimes test cfg.horizon tk) = .error e →
      get_predict m train test cfg =
        (EvalCall.fit train ::
          (predictCallsOf test cfg ((runStarts test cfg).take k) ++
            [EvalCall.predict (windowTimes test cfg.horizon tk)]),
         .error (EvalError.modelPredict tk k e))) ∧
    (∀ (m : Model) (train test : TimeSeries) (cfg : ForecastEvaluatorConfig)
      (calls : List EvalCall) (res : List (Nat × List ℚ)),
      get_predict m train test cfg = (calls, .ok res) →
      ∀ c ∈ calls, callOk m c) ∧
    (∀ (m : Model) (train test : TimeSeries) (cfg : ForecastEvaluatorConfig)
      (calls : List EvalCall) (err : EvalError),
      get_predict m train test cfg = (calls, .error err) →
      (∃ msg, err = EvalError.configuration msg ∧ calls = []) ∨
      ∃ pre, (∀ c ∈ pre, callOk m c) ∧
        ((∃ d tf i e, err = EvalError.modelFit tf i e ∧
            calls = pre ++ [EvalCall.fit d] ∧ m.fit d = .error e ∧
            ((i = 0 ∧ d = train ∧ tf = trainEnd train) ∨
             (d = observedUpTo train test tf ∧
              tf = testStart test + i * cfg.cadence))) ∨
         (∃ tf i e, err = EvalError.modelPredict tf i e ∧
            calls = pre ++
              [EvalCall.predict (windowTimes test cfg.horizon tf)] ∧
            m.predict (windowTimes test cfg.horizon tf) = .error e ∧
            windowTimes test cfg.horizon tf ≠ [] ∧
            tf = testStart test + i * cfg.cadence))) := by
  refine ⟨?_, ?_, ?_, ?_⟩
  · intro m train test cfg e hv hfit
    simp [get_predict, hv, hfit]
  · intro m train test cfg k tk e hv hnone hfit hne hk hok hw hfail
    have hloop := @evalLoop_predict_fail m train test cfg (testEnd test) hnone
      (testEnd test + 1 - testStart test) (testStart test) 0 (trainEnd train)
      k tk e hk hok hw hfail
    rw [get_predict_run hv hfit hne, hloop]
    simp only [Nat.zero_add]
    rfl
  · intro m train test cfg calls res h
    exact get_predict_ok_calls h
  · intro m train test cfg calls err h
    exact get_predict_error_log h

/-- Witness for C8: the always-failing-predict model aborts at the very
first window of the §8 scenario with the exact truncated log; the all-zero
conforming model's successful run has every logged call succeed; and a model
whose first mid-loop retrain fit fails (retraining enabled) aborts at that
fit call with the error naming its timestamp 124 and iteration index 1. -/
theorem claim_C8_witness :
    get_predict mFail train100 test48 cfg24 =
      (EvalCall.fit train100 ::
        (predictCallsOf test48 cfg24 ((runStarts test48 cfg24).take 0) ++
          [EvalCall.predict (windowTimes test48 cfg24.horizon 100)]),
       .error (EvalError.modelPredict 100 0 "predict failed")) ∧
    (∀ c ∈ [EvalCall.fit train100,
        EvalCall.predict (windowTimes test48 cfg24.horizon 100),
        EvalCall.predict (windowTimes test48 cfg24.horizon 124)],
      callOk mZero c) ∧
    ((∃ msg, EvalError.modelFit 124 1 "fit failed" =
        EvalError.configuration msg ∧
        [EvalCall.fit train100,
         EvalCall.predict (windowTimes test48 cfg24r.horizon 100),
         EvalCall.fit (observedUpTo train100 test48 124)] =
          ([] : List EvalCall)) ∨
     ∃ pre, (∀ c ∈ pre, callOk mFitFail c) ∧
       ((∃ d tf i e, EvalError.modelFit 124 1 "fit failed" =
            EvalError.modelFit tf i e ∧
          [EvalCall.fit train100,
           EvalCall.predict (windowTimes test48 cfg24r.horizon 100),
           EvalCall.fit (observedUpTo train100 test48 124)] =
            pre ++ [EvalCall.fit d] ∧
          mFitFail.fit d = .error e ∧
          ((i = 0 ∧ d = train100 ∧ tf = trainEnd train100) ∨
           (d = observedUpTo train100 test48 tf ∧
            tf = testStart test48 + i * cfg24r.cadence))) ∨
        (∃ tf i e, EvalError.modelFit 124 1 "fit failed" =
            EvalError.modelPredict tf i e ∧
          [EvalCall.fit train100,
           EvalCall.predict (windowTimes test48 cfg24r.horizon 100),
           EvalCall.fit (observedUpTo train100 test48 124)] =
            pre ++
              [EvalCall.predict (windowTimes test48 cfg24r.horizon tf)] ∧
          mFitFail.predict (windowTimes test48 cfg24r.horizon tf) =
            .error e ∧
          windowTimes test48 cfg24r.horizon tf ≠ [] ∧
          tf = testStart test48 + i * cfg24r.cadence))) :=
  ⟨claim_C8.2.1 mFail train100 test48 cfg24 0 100 "predict failed" rfl rfl rfl
    (by decide) (by decide) (fun j hj => absurd hj (Nat.not_lt_zero j))
    (by decide) rfl,
   claim_C8.2.2.1 mZero train100 test48 cfg24
     [EvalCall.fit train100,
      EvalCall.predict (windowTimes test48 cfg24.horizon 100),
      EvalCall.predict (windowTimes test48 cfg24.horizon 124)] test48
     (by decide),
   claim_C8.2.2.2 mFitFail train100 test48 cfg24r
     [EvalCall.fit train100,
      EvalCall.predict (windowTimes test48 cfg24r.horizon 100),
      EvalCall.fit (observedUpTo train100 test48 124)]
     (EvalError.modelFit 124 1 "fit failed") (by decide)⟩

/-- Witness for C10 at the all-zero conforming model on the §8 scenario. -/
theorem claim_C10_witness :
    (∃ q, sMAPE test48 test48 = .ok q) ∧
    (∃ x, rmse test48 test48 = .ok x) ∧
    (∀ metric, ∃ y, evaluate metric test48 test48 = .ok y) :=
  claim_C10 mZero train100 test48 cfg24 (by decide) (by decide) rfl
    (fun _ => rfl) (fun ts => ⟨ts.map (fun _ => [(0 : ℚ)]), rfl, by simp⟩)
    test48 (by decide)

end Merlion
